import Mathlib

set_option maxRecDepth 16384

/-!
Verification development for the hidemysearch proxy server
(`server/routes.ts`, shared schema, and the HTML rewriting pipeline of the
`/api/proxy` route).

The server code is TypeScript running on Node.  The shallow embedding below
translates the route handlers and the regex-based HTML rewriting passes into
executable Lean functions over `String` / `List Char`.  Platform primitives
used by the source (`encodeURIComponent`, `decodeURIComponent`, `new URL`,
`parseInt`, `String.prototype.replace` with regex or string patterns) are
modelled faithfully for the input shapes the routes can actually feed them;
each model notes its scope in its doc comment.
-/

/-! ## Characters and case folding -/

/-- The single-quote character (U+0027). -/
def squote : Char := Char.ofNat 39

/-- ASCII lower-casing of one character.  This models the case folding used by
a JavaScript regex `i` flag on ASCII pattern text: without the `u` flag a
non-ASCII character never case-matches an ASCII one, so folding only `A`–`Z`
is exact for the all-ASCII patterns in the source. -/
def asciiLower (c : Char) : Char :=
  if 'A' ≤ c ∧ c ≤ 'Z' then Char.ofNat (c.toNat + 32) else c

/-- ASCII lower-casing of a character list. -/
def lowerList (cs : List Char) : List Char := cs.map asciiLower

/-- Is the character one of the two HTML attribute quote characters `"` `'`
(the regex character class `["']` in the source)? -/
def isQuote (c : Char) : Bool := c = '"' || c = squote

/-! ## `encodeURIComponent` / `decodeURIComponent` (ECMA-262) -/

/-- Characters `encodeURIComponent` leaves unescaped
(ECMA-262 `uriUnescaped`: alphanumerics and `- _ . ! ~ * ' ( )`). -/
def uriUnescaped (c : Char) : Bool :=
  ('A' ≤ c && c ≤ 'Z') || ('a' ≤ c && c ≤ 'z') || ('0' ≤ c && c ≤ '9') ||
  c = '-' || c = '_' || c = '.' || c = '!' || c = '~' || c = '*' ||
  c = squote || c = '(' || c = ')'

/-- Upper-case hexadecimal digit of `n < 16`. -/
def hexDigitUpper (n : Nat) : Char :=
  if n < 10 then Char.ofNat (48 + n) else Char.ofNat (55 + n)

/-- `%XX` escape of one byte, upper-case hex, as `encodeURIComponent` emits. -/
def byteEsc (b : Nat) : List Char :=
  ['%', hexDigitUpper (b / 16), hexDigitUpper (b % 16)]

/-- UTF-8 encoding of the code point `n` (1–4 bytes). -/
def utf8Bytes (n : Nat) : List Nat :=
  if n < 128 then [n]
  else if n < 2048 then [192 + n / 64, 128 + n % 64]
  else if n < 65536 then [224 + n / 4096, 128 + (n / 64) % 64, 128 + n % 64]
  else [240 + n / 262144, 128 + (n / 4096) % 64, 128 + (n / 64) % 64, 128 + n % 64]

/-- `encodeURIComponent` on one character: unescaped characters pass through,
every other character contributes the `%XX` escapes of its UTF-8 bytes. -/
def encChar (c : Char) : List Char :=
  if uriUnescaped c then [c] else (utf8Bytes c.toNat).flatMap byteEsc

/-- Model of JavaScript `encodeURIComponent` on a character list. -/
def encodeList (cs : List Char) : List Char := cs.flatMap encChar

/-- Model of JavaScript `encodeURIComponent`. -/
def encodeURIComponent (s : String) : String := ⟨encodeList s.data⟩

/-- Value of a hexadecimal digit character, `none` otherwise. -/
def hexVal (c : Char) : Option Nat :=
  if '0' ≤ c && c ≤ '9' then some (c.toNat - 48)
  else if 'A' ≤ c && c ≤ 'F' then some (c.toNat - 55)
  else if 'a' ≤ c && c ≤ 'f' then some (c.toNat - 87)
  else none

/-- A token of a percent-encoded string: a literal character, or one byte
contributed by a `%XX` escape. -/
inductive PdTok where
  | lit (c : Char)
  | byte (b : Nat)
  deriving DecidableEq, Repr

/-- First stage of `decodeURIComponent`: tokenize the input, turning each
`%XX` escape into the byte it denotes (`none` on a truncated or non-hex
escape, where `decodeURIComponent` throws `URIError`). -/
def pdTokens : List Char → Option (List PdTok)
  | [] => some []
  | c :: rest =>
    if c = '%' then
      match rest with
      | h1 :: h2 :: rest2 =>
        match hexVal h1, hexVal h2 with
        | some v1, some v2 => (pdTokens rest2).map (PdTok.byte (16 * v1 + v2) :: ·)
        | _, _ => none
      | _ => none
    else (pdTokens rest).map (PdTok.lit c :: ·)

/-- A UTF-8 continuation byte contributed by an escape (`0x80`–`0xBF`),
reduced to its 6 payload bits. -/
def contByte : PdTok → Option Nat
  | .byte b => if 128 ≤ b ∧ b < 192 then some (b - 128) else none
  | .lit _ => none

/-- Decode the continuation bytes of a multi-byte UTF-8 sequence with lead
byte `b`: rejects stray continuation bytes and overlong lead bytes
(`b < 0xC2`), truncated sequences, overlong encodings, surrogates and values
above U+10FFFF.  Returns the code point and the remaining tokens (with the
length bound that makes the decoder's recursion evidently terminating). -/
def decodeMulti (b : Nat) (ts : List PdTok) :
    Option (Nat × {r : List PdTok // r.length ≤ ts.length}) :=
  if b < 194 then none
  else if b < 224 then
    match ts with
    | t2 :: ts2 =>
      match contByte t2 with
      | some n2 => some ((b - 192) * 64 + n2, ⟨ts2, by simp⟩)
      | none => none
    | [] => none
  else if b < 240 then
    match ts with
    | t2 :: t3 :: ts2 =>
      match contByte t2, contByte t3 with
      | some n2, some n3 =>
        let n := (b - 224) * 4096 + n2 * 64 + n3
        if 2048 ≤ n ∧ ¬(55296 ≤ n ∧ n < 57344) then
          some (n, ⟨ts2, by simp only [List.length_cons]; omega⟩)
        else none
      | _, _ => none
    | _ => none
  else if b < 245 then
    match ts with
    | t2 :: t3 :: t4 :: ts2 =>
      match contByte t2, contByte t3, contByte t4 with
      | some n2, some n3, some n4 =>
        let n := (b - 240) * 262144 + n2 * 4096 + n3 * 64 + n4
        if 65536 ≤ n ∧ n ≤ 1114111 then
          some (n, ⟨ts2, by simp only [List.length_cons]; omega⟩)
        else none
      | _, _, _ => none
    | _ => none
  else none

/-- Second stage of `decodeURIComponent`: literal characters stand for
themselves; escape bytes are decoded as UTF-8 sequences (continuation bytes
must themselves come from escapes). -/
def utf8DecodeTokens : List PdTok → Option (List Char)
  | [] => some []
  | .lit c :: ts => (utf8DecodeTokens ts).map (c :: ·)
  | .byte b :: ts =>
    if b < 128 then (utf8DecodeTokens ts).map (Char.ofNat b :: ·)
    else
      match decodeMulti b ts with
      | some (n, ts2) => (utf8DecodeTokens ts2.val).map (Char.ofNat n :: ·)
      | none => none
termination_by ts0 => ts0.length
decreasing_by
  · simp only [List.length_cons]
    omega
  · simp only [List.length_cons]
    omega
  · simp only [List.length_cons]
    have hb := ts2.2
    exact Nat.lt_succ_of_le hb

/-- Model of JavaScript `decodeURIComponent` (which throws `URIError` on
malformed input — modelled as `none`): `%XX` escapes are decoded as UTF-8
byte sequences, every other character stands for itself. -/
def percentDecode (cs : List Char) : Option (List Char) :=
  match pdTokens cs with
  | none => none
  | some ts => utf8DecodeTokens ts

/-- The token list `encodeURIComponent` produces for one character. -/
def encTok (c : Char) : List PdTok :=
  if uriUnescaped c then [PdTok.lit c] else (utf8Bytes c.toNat).map PdTok.byte

/-! ## Substring search (JavaScript `String.prototype.includes`) -/

/-- Does `cs` start with `pat`? -/
def leadsWith : List Char → List Char → Bool
  | [], _ => true
  | _ :: _, [] => false
  | p :: ps, c :: cs => p = c && leadsWith ps cs

/-- Does `hay` contain `pat` as a contiguous run? -/
def containsSub : List Char → List Char → Bool
  | [], pat => pat.isEmpty
  | c :: cs, pat => leadsWith pat (c :: cs) || containsSub cs pat

/-- Model of JavaScript `hay.includes(pat)`. -/
def containsSubstr (hay pat : String) : Bool := containsSub hay.data pat.data

/-- Model of JavaScript `s.startsWith(pat)` (over characters; identical to the
UTF-16 reading for the ASCII patterns the source uses). -/
def strStartsWith (s pat : String) : Bool := leadsWith pat.data s.data

/-! ## `new URL(...)` (WHATWG URL constructor)

The source calls `new URL` in three situations: on strings produced by
`sanitizeUrl` (which always start with `http://` or `https://`), on a target
URL that already passed that validation, and — in the `srcset` pass — on a
component that starts with `/` (where WHATWG parsing fails for lack of a
scheme and a base).  `parseHttpUrl` models the constructor on exactly this
territory: absolute `http`/`https` URLs with ASCII hosts.  Scope notes:
IPv6 host literals, percent-escapes or non-ASCII in host names (IDNA) are out
of the model's scope — such hosts are rejected. -/

/-- A parsed absolute http(s) URL — the fields of the WHATWG `URL` object the
source reads (`protocol`, `host`, `hostname`). -/
structure UrlParts where
  scheme : String
  hostname : String
  port : String
  deriving DecidableEq, Repr

/-- `url.protocol`: scheme plus `:`. -/
def UrlParts.protocol (u : UrlParts) : String := u.scheme ++ ":"

/-- `url.host`: hostname, plus `:port` when a non-default port is present. -/
def UrlParts.host (u : UrlParts) : String :=
  if u.port = "" then u.hostname else u.hostname ++ ":" ++ u.port

/-- C0 control or space (stripped from both ends by the WHATWG parser). -/
def isC0OrSpace (c : Char) : Bool := c.toNat ≤ 32

/-- ASCII tab or newline (removed anywhere by the WHATWG parser). -/
def isTabOrNewline (c : Char) : Bool := c.toNat = 9 || c.toNat = 10 || c.toNat = 13

/-- WHATWG input preprocessing: trim C0 controls and spaces from both ends,
remove tabs and newlines throughout. -/
def preprocessUrlInput (cs : List Char) : List Char :=
  (((cs.dropWhile isC0OrSpace).reverse.dropWhile isC0OrSpace).reverse).filter
    (fun c => !isTabOrNewline c)

/-- Characters that make an (ASCII, non-IPv6) host invalid: controls and
space, delete and beyond (non-ASCII hosts are out of the model's scope), the
WHATWG forbidden host code points, and `%` (escaped hosts are out of scope). -/
def forbiddenHostChar (c : Char) : Bool :=
  c.toNat ≤ 32 || c.toNat ≥ 127 || c = '#' || c = '/' || c = ':' || c = '<' ||
  c = '>' || c = '?' || c = '@' || c = '[' || c = '\\' || c = ']' ||
  c = '^' || c = '|' || c = '%'

/-- Numeric value of a decimal digit string. -/
def decDigitsVal (cs : List Char) : Nat :=
  cs.foldl (fun a c => 10 * a + (c.toNat - 48)) 0

/-- Model of `new URL(s)` restricted to absolute `http`/`https` URLs (see the
section comment for scope).  Returns `none` where the constructor throws. -/
def parseHttpUrl (s : String) : Option UrlParts :=
  let cs := preprocessUrlInput s.data
  let schemePart := cs.takeWhile (fun c => c ≠ ':')
  let rest1 := cs.dropWhile (fun c => c ≠ ':')
  match rest1 with
  | [] => none
  | _ :: afterColon =>
    let scheme := lowerList schemePart
    if scheme = "http".data ∨ scheme = "https".data then
      let afterSlashes := afterColon.dropWhile (fun c => c = '/' || c = '\\')
      let authority := afterSlashes.takeWhile
        (fun c => !(c = '/' || c = '\\' || c = '?' || c = '#'))
      let hostPort := if authority.contains '@'
        then (authority.reverse.takeWhile (fun c => c ≠ '@')).reverse
        else authority
      let hostPart := hostPort.takeWhile (fun c => c ≠ ':')
      let portPart := hostPort.dropWhile (fun c => c ≠ ':')
      if hostPart ≠ [] ∧ hostPart.all (fun c => !forbiddenHostChar c) then
        let host : String := ⟨lowerList hostPart⟩
        match portPart with
        | [] => some ⟨⟨scheme⟩, host, ""⟩
        | _ :: portDigits =>
          if portDigits.all Char.isDigit then
            if portDigits = [] then some ⟨⟨scheme⟩, host, ""⟩
            else
              let pn := decDigitsVal portDigits
              if pn ≤ 65535 then
                if (scheme = "http".data ∧ pn = 80) ∨ (scheme = "https".data ∧ pn = 443)
                then some ⟨⟨scheme⟩, host, ""⟩
                else some ⟨⟨scheme⟩, host, toString pn⟩
              else none
          else none
      else none
    else none

/-! ## The URL helpers of `server/routes.ts` -/

/-- `isValidUrl` (routes.ts lines 17–24): `new URL(url)` succeeds.  Every call
site applies it to the result of `sanitizeUrl`, which always starts with
`http://` or `https://`, so the http(s)-restricted parser model is exact. -/
def isValidUrl (url : String) : Bool := (parseHttpUrl url).isSome

/-- `sanitizeUrl` (routes.ts lines 27–32): prepend `https://` when the string
starts with neither `http://` nor `https://`. -/
def sanitizeUrl (url : String) : String :=
  if !strStartsWith url "http://" && !strStartsWith url "https://" then
    "https://" ++ url
  else url

/-! ## JavaScript `parseInt` -/

/-- JavaScript whitespace skipped by `parseInt` (the common cases: space, tab,
line feeds, vertical tab, form feed, carriage return, NBSP, BOM, line and
paragraph separators). -/
def jsWhitespace (c : Char) : Bool :=
  c.toNat = 32 || c.toNat = 9 || c.toNat = 10 || c.toNat = 11 || c.toNat = 12 ||
  c.toNat = 13 || c.toNat = 160 || c.toNat = 8232 || c.toNat = 8233 ||
  c.toNat = 65279

/-- Is the character a hexadecimal digit? -/
def isHexDigitChar (c : Char) : Bool := (hexVal c).isSome

/-- Numeric value of a hexadecimal digit string. -/
def hexDigitsVal (cs : List Char) : Nat :=
  cs.foldl (fun a c => 16 * a + ((hexVal c).getD 0)) 0

/-- The digit-run stage of `parseInt` after sign handling: a `0x`/`0X` lead-in
switches to hexadecimal, otherwise the maximal decimal digit run is read;
`NaN` (here `none`) when no digit is read. -/
def jsParseIntBody (sign : Int) (cs : List Char) : Option Int :=
  match cs with
  | c0 :: x :: r =>
    if c0 = '0' ∧ (x = 'x' ∨ x = 'X') then
      let digits := r.takeWhile isHexDigitChar
      if digits = [] then none else some (sign * hexDigitsVal digits)
    else
      let digits := (c0 :: x :: r).takeWhile Char.isDigit
      if digits = [] then none else some (sign * decDigitsVal digits)
  | other =>
    let digits := other.takeWhile Char.isDigit
    if digits = [] then none else some (sign * decDigitsVal digits)

/-- Model of JavaScript `parseInt(s)` (radix auto-detection): skip whitespace,
read an optional sign, read a `0x`/`0X` hexadecimal or else a decimal digit
run, ignore everything after it; `NaN` (here `none`) when no digit is read.
(Float rounding of astronomically long digit runs is out of scope.) -/
def jsParseInt (s : String) : Option Int :=
  match s.data.dropWhile jsWhitespace with
  | [] => jsParseIntBody 1 []
  | c :: r =>
    if c = '+' then jsParseIntBody 1 r
    else if c = '-' then jsParseIntBody (-1) r
    else jsParseIntBody 1 (c :: r)



/-! ## The HTML rewriting pipeline of `/api/proxy` (routes.ts lines 304–549)

Each regex `replace` of the source is modelled as a left-to-right scan that at
every position attempts the pattern (with the regex's alternation order and
greedy semantics, which are deterministic for these patterns) and on a match
emits the callback's replacement and continues after the matched text.  The
fuel argument of each scanner is the length of its input, which bounds the
number of scan steps. -/

/-- The monitored attribute set (routes.ts line 309), in source order. -/
def urlAttributes : List String :=
  ["href", "src", "action", "data-src", "srcset", "data-srcset", "poster",
   "background", "formaction", "cite", "longdesc", "usemap"]

/-- Case-insensitive literal match of `pat` (given lower-case) against the
head of `cs`; returns the consumed original characters and the rest. -/
def ciMatches : List Char → List Char → Option (List Char × List Char)
  | [], cs => some ([], cs)
  | _ :: _, [] => none
  | p :: ps, c :: cs =>
    if asciiLower c = p then
      match ciMatches ps cs with
      | some (nm, rest) => some (c :: nm, rest)
      | none => none
    else none

/-- Longest run of non-quote characters (the greedy `[^"']*` / `[^"']+`). -/
def spanNQ : List Char → List Char × List Char
  | [] => ([], [])
  | c :: cs =>
    if isQuote c then ([], c :: cs)
    else
      let p := spanNQ cs
      (c :: p.1, p.2)

/-- Match `https?:\/\/` case-insensitively.  Trying the longer literal first
is equivalent to the regex's greedy optional `s?`. -/
def matchScheme (cs : List Char) : Option (List Char × List Char) :=
  match ciMatches "https://".data cs with
  | some r => some r
  | none => ciMatches "http://".data cs

/-- After an attribute name, match `=["'](?:https?:\/\/[^"']+)["']` (the rest
of `attributePattern`, routes.ts line 310); returns the attribute value (the
characters between the quotes, which is exactly what the callback's inner
regex `["'](https?:\/\/[^"']+)["']` extracts), both quotes, and the rest. -/
def matchValue1 (cs : List Char) : Option (List Char × Char × Char × List Char) :=
  match cs with
  | '=' :: q :: rest0 =>
    if isQuote q then
      match matchScheme rest0 with
      | some (sch, rest1) =>
        let p := spanNQ rest1
        if p.1 = [] then none
        else
          match p.2 with
          | q2 :: rest3 =>
            if isQuote q2 then some (sch ++ p.1, q, q2, rest3) else none
          | [] => none
      | none => none
    else none
  | _ => none

/-- One position of the `attributePattern` global replace (routes.ts
lines 310–322): try each attribute name in source order (regex alternation
with backtracking); on the first alternative whose value part also matches,
emit `prefix + "/api/proxy?url=" + encodeURIComponent(resourceUrl) + suffix`.
Returns the replacement and the rest of the input after the match. -/
def tryNames1 : List String → List Char → Option (List Char × List Char)
  | [], _ => none
  | n :: ns, cs =>
    match ciMatches n.data cs with
    | some (nm, cs1) =>
      match matchValue1 cs1 with
      | some (url, q, q2, rest) =>
        some (nm ++ '=' :: q :: ("/api/proxy?url=".data ++ encodeList url ++ [q2]), rest)
      | none => tryNames1 ns cs
    | none => tryNames1 ns cs

/-- Scan loop of the `attributePattern` replace. -/
def pass1Go : Nat → List Char → List Char
  | 0, cs => cs
  | _ + 1, [] => []
  | fuel + 1, c :: cs =>
    match tryNames1 urlAttributes (c :: cs) with
    | some (repl, rest) => repl ++ pass1Go fuel rest
    | none => c :: pass1Go fuel cs

/-- Rewriting pass 1: absolute URLs in monitored attributes (routes.ts
lines 308–322). -/
def pass1 (html : String) : String := ⟨pass1Go html.data.length html.data⟩

/-- JavaScript `String.prototype.trim`. -/
def jsTrim (cs : List Char) : List Char :=
  ((cs.dropWhile jsWhitespace).reverse.dropWhile jsWhitespace).reverse

/-- JavaScript `s.split(',')`: split at every comma, keeping empty pieces. -/
def splitComma : List Char → List (List Char)
  | [] => [[]]
  | c :: rest =>
    let r := splitComma rest
    if c = ',' then [] :: r
    else
      match r with
      | h :: t => (c :: h) :: t
      | [] => [[c]]

/-- JavaScript `t.split(/\s+/)` on an already-trimmed string: the
whitespace-separated tokens; `"".split(/\s+/)` is `[""]`. -/
def splitWsTrimmed (cs : List Char) : List (List Char) :=
  if cs = [] then [[]]
  else (cs.splitOnP jsWhitespace).filter (fun t => t ≠ [])

/-- The `srcset` component rewriter (routes.ts lines 326–339): destructure the
trimmed component into `[url, descriptor]`; a component starting with `http`
is proxied (descriptor preserved after a space); for a component starting with
`/` the code calls `new URL(url)` — where `url` is this component, shadowing
the outer target URL — which throws for a scheme-less string, so the `catch`
returns the original component; anything else is returned unchanged.  The
`some` branch of the parse models the source's `try` block as written. -/
def processSrcsetComponent (src : List Char) : List Char :=
  let t := jsTrim src
  let tokens := splitWsTrimmed t
  let url := tokens.headD []
  let descriptor : Option (List Char) := tokens[1]?
  if leadsWith "http".data url then
    "/api/proxy?url=".data ++ encodeList url ++
      (match descriptor with
       | some d => ' ' :: d
       | none => [])
  else if leadsWith "/".data url then
    match parseHttpUrl ⟨url⟩ with
    | some u =>
      let base := (u.protocol ++ "//" ++ u.host).data
      "/api/proxy?url=".data ++ encodeList (base ++ url) ++
        (match descriptor with
         | some d => ' ' :: d
         | none => [])
    | none => src
  else src

/-- One position of the `srcset` replace (routes.ts lines 325–343): match
`srcset=["']([^"']+)["']` case-insensitively, split the value on commas, map
the component rewriter, join with `", "` and re-wrap as `srcset="..."`. -/
def tryMatch2 (cs : List Char) : Option (List Char × List Char) :=
  match ciMatches "srcset=".data cs with
  | some (_, cs1) =>
    match cs1 with
    | q :: rest0 =>
      if isQuote q then
        let p := spanNQ rest0
        if p.1 = [] then none
        else
          match p.2 with
          | q2 :: rest2 =>
            if isQuote q2 then
              let newSrcset :=
                List.intercalate ", ".data ((splitComma p.1).map processSrcsetComponent)
              some ("srcset=\"".data ++ newSrcset ++ ['"'], rest2)
            else none
          | [] => none
      else none
    | [] => none
  | none => none

/-- Scan loop of the `srcset` replace. -/
def pass2Go : Nat → List Char → List Char
  | 0, cs => cs
  | _ + 1, [] => []
  | fuel + 1, c :: cs =>
    match tryMatch2 (c :: cs) with
    | some (repl, rest) => repl ++ pass2Go fuel rest
    | none => c :: pass2Go fuel cs

/-- Rewriting pass 2: `srcset` lists (routes.ts lines 324–343). -/
def pass2 (html : String) : String := ⟨pass2Go html.data.length html.data⟩

/-- After an attribute name, match `=["']\/([^"']*)["']` (the rest of
`relativeUrlPattern`, routes.ts line 346); returns the captured part after the
leading slash, both quotes, and the rest. -/
def matchValue3 (cs : List Char) : Option (List Char × Char × Char × List Char) :=
  match cs with
  | '=' :: q :: '/' :: rest0 =>
    if isQuote q then
      match spanNQ rest0 with
      | (rel, q2 :: rest2) => if isQuote q2 then some (rel, q, q2, rest2) else none
      | (_, []) => none
    else none
  | _ => none

/-- One position of the `relativeUrlPattern` global replace (routes.ts
lines 345–358): on a match, resolve against the target URL
(`${originalUrlObj.protocol}//${originalUrlObj.host}`) and emit
`prefix + "/api/proxy?url=" + encodeURIComponent(base + "/" + relativeUrl) +
suffix`; if `new URL(url)` were to throw, the `catch` returns the match
unchanged (still consuming it). -/
def tryNames3 (baseUrl : String) : List String → List Char → Option (List Char × List Char)
  | [], _ => none
  | n :: ns, cs =>
    match ciMatches n.data cs with
    | some (nm, cs1) =>
      match matchValue3 cs1 with
      | some (rel, q, q2, rest) =>
        match parseHttpUrl baseUrl with
        | some u =>
          let base := (u.protocol ++ "//" ++ u.host).data
          some (nm ++ '=' :: q :: ("/api/proxy?url=".data ++
            encodeList (base ++ '/' :: rel) ++ [q2]), rest)
        | none => some (nm ++ '=' :: q :: '/' :: (rel ++ [q2]), rest)
      | none => tryNames3 baseUrl ns cs
    | none => tryNames3 baseUrl ns cs

/-- Scan loop of the `relativeUrlPattern` replace. -/
def pass3Go (baseUrl : String) : Nat → List Char → List Char
  | 0, cs => cs
  | _ + 1, [] => []
  | fuel + 1, c :: cs =>
    match tryNames3 baseUrl urlAttributes (c :: cs) with
    | some (repl, rest) => repl ++ pass3Go baseUrl fuel rest
    | none => c :: pass3Go baseUrl fuel cs

/-- Rewriting pass 3: root-relative URLs in monitored attributes (routes.ts
lines 345–358). -/
def pass3 (baseUrl html : String) : String := ⟨pass3Go baseUrl html.data.length html.data⟩

/-- Does `s` begin with the attribute name `n` (case-insensitively) followed
by `=`, a quote and `/`, with no further quote anywhere after them in `s`? -/
def openRelAt (n : String) (s : List Char) : Bool :=
  match ciMatches n.data s with
  | some (_, rest) =>
    match rest with
    | e :: q1 :: sl :: tail =>
      e = '=' && sl = '/' && isQuote q1 && tail.all (fun c => !isQuote c)
    | _ => false
  | none => false

/-- A dangling opening of `relativeUrlPattern` at the head of `s`: a monitored
attribute name, `=`, a quote and `/`, with no further quote anywhere in `s`.
When such a head is still open at the end of a prefix, the regex engine uses
the opening quote of the next attribute occurrence as the closing `["']` of
this earlier match, so the occurrence is consumed instead of rewritten. -/
def hasOpenRelMatch (s : List Char) : Bool :=
  urlAttributes.any (fun n => openRelAt n s)

/-- One position of the CSS `url()` replace (routes.ts lines 361–376): match
`url\(['"]?([^)"']+)['"]?\)` case-insensitively (the optional quotes and the
greedy content class are deterministic: shortening the greedy matches can
never turn failure into success); absolute content is proxied as
`url('/api/proxy?url=...')`, root-relative content is resolved against the
target URL first, anything else leaves the match unchanged. -/
def tryMatchCss (baseUrl : String) (cs : List Char) : Option (List Char × List Char) :=
  match ciMatches "url(".data cs with
  | some (u0, cs1) =>
    let oq : List Char × List Char :=
      match cs1 with
      | c :: r => if isQuote c then ([c], r) else ([], c :: r)
      | [] => ([], [])
    let p := oq.2.span (fun c => !(c = ')' || isQuote c))
    if p.1 = [] then none
    else
      let finish : Option (List Char × List Char) :=
        match p.2 with
        | ')' :: rest => some ([], rest)
        | c :: ')' :: rest => if isQuote c then some ([c], rest) else none
        | _ => none
      match finish with
      | some (cq, rest) =>
        let content := p.1
        let original := u0 ++ oq.1 ++ content ++ cq ++ [')']
        if leadsWith "http".data content then
          some ("url(".data ++ squote :: ("/api/proxy?url=".data ++
            encodeList content ++ [squote, ')']), rest)
        else if leadsWith "/".data content then
          match parseHttpUrl baseUrl with
          | some u =>
            let base := (u.protocol ++ "//" ++ u.host).data
            some ("url(".data ++ squote :: ("/api/proxy?url=".data ++
              encodeList (base ++ content) ++ [squote, ')']), rest)
          | none => some (original, rest)
        else some (original, rest)
      | none => none
  | none => none

/-- Scan loop of the CSS `url()` replace. -/
def passCssGo (baseUrl : String) : Nat → List Char → List Char
  | 0, cs => cs
  | _ + 1, [] => []
  | fuel + 1, c :: cs =>
    match tryMatchCss baseUrl (c :: cs) with
    | some (repl, rest) => repl ++ passCssGo baseUrl fuel rest
    | none => c :: passCssGo baseUrl fuel cs

/-- Rewriting pass 4: CSS `url()` references (routes.ts lines 360–376). -/
def passCssUrl (baseUrl html : String) : String :=
  ⟨passCssGo baseUrl html.data.length html.data⟩

/-- Candidate decompositions for the greedy `([^"']*)` before
`background-image:url\(` in the inline-style pattern (routes.ts line 379):
all positions within the non-quote run following the opening quote where the
literal matches case-insensitively, left to right; each entry carries the
prefix `A`, the literal as matched (original casing), and the rest. -/
def styleCandidates : List Char → List Char → List (List Char × List Char × List Char)
  | [], _ => []
  | c :: rest, accA =>
    if isQuote c then []
    else
      let more := styleCandidates rest (c :: accA)
      match ciMatches "background-image:url(".data (c :: rest) with
      | some (lit, after) => (accA.reverse, lit, after) :: more
      | none => more

/-- Complete one candidate of the inline-style pattern: after the literal,
greedy `([^)]+)` up to the next `)` (which may cross quotes), then `\)`, then
greedy `([^"']*)` up to the closing quote.  Returns `(A, B, C, q2, rest)`. -/
def styleFinish (afterLit : List Char) :
    Option (List Char × List Char × Char × List Char) :=
  let p := afterLit.span (fun c => c ≠ ')')
  if p.1 = [] then none
  else
    match p.2 with
    | ')' :: rest2 =>
      let pc := spanNQ rest2
      match pc.2 with
      | q2 :: rest4 => if isQuote q2 then some (p.1, pc.1, q2, rest4) else none
      | [] => none
    | _ => none

/-- One position of the inline-style `background-image` replace (routes.ts
lines 379–397): match `style=["']([^"']*)background-image:url\(([^)]+)\)
([^"']*)["']`, trying the greedy prefix `A` from its rightmost candidate
backwards (regex backtracking); the callback strips quotes from the captured
URL, trims it, and proxies absolute or root-relative URLs, rebuilding the
attribute as `style="..."` with double quotes; other URLs leave the match
unchanged. -/
def tryMatchStyle (baseUrl : String) (cs : List Char) : Option (List Char × List Char) :=
  match ciMatches "style=".data cs with
  | some (s0, cs1) =>
    match cs1 with
    | q :: rest0 =>
      if isQuote q then
        let cands := (styleCandidates rest0 []).reverse
        cands.firstM (fun cand =>
          match styleFinish cand.2.2 with
          | some (bB, cC, q2, rest) =>
            let cleanBgUrl := jsTrim (cand.2.2.take 0 ++ bB.filter (fun c => !isQuote c))
            let original := s0 ++ q :: (cand.1 ++ cand.2.1 ++ bB ++ ')' :: cC ++ [q2])
            if leadsWith "http".data cleanBgUrl then
              some ("style=\"".data ++ cand.1 ++ "background-image:url(".data ++
                squote :: ("/api/proxy?url=".data ++ encodeList cleanBgUrl ++
                  [squote, ')']) ++ cC ++ ['"'], rest)
            else if leadsWith "/".data cleanBgUrl then
              match parseHttpUrl baseUrl with
              | some u =>
                let base := (u.protocol ++ "//" ++ u.host).data
                some ("style=\"".data ++ cand.1 ++ "background-image:url(".data ++
                  squote :: ("/api/proxy?url=".data ++ encodeList (base ++ cleanBgUrl) ++
                    [squote, ')']) ++ cC ++ ['"'], rest)
              | none => some (original, rest)
            else some (original, rest)
          | none => none)
      else none
    | [] => none
  | none => none

/-- Scan loop of the inline-style replace. -/
def passStyleGo (baseUrl : String) : Nat → List Char → List Char
  | 0, cs => cs
  | _ + 1, [] => []
  | fuel + 1, c :: cs =>
    match tryMatchStyle baseUrl (c :: cs) with
    | some (repl, rest) => repl ++ passStyleGo baseUrl fuel rest
    | none => c :: passStyleGo baseUrl fuel cs

/-- Rewriting pass 5: inline styles with `background-image` (routes.ts
lines 378–397). -/
def passStyleBg (baseUrl html : String) : String :=
  ⟨passStyleGo baseUrl html.data.length html.data⟩

/-- Replacement text of the `window.location` patch (routes.ts line 400). -/
def windowLocationRepl : String :=
  "window.parent.postMessage(\x27navigate:\x27, \x27*\x27); window.location"

/-- Global, case-sensitive literal replace of `window.location` (routes.ts
line 400); the replacement itself is not re-scanned. -/
def wlGo : Nat → List Char → List Char
  | 0, cs => cs
  | _ + 1, [] => []
  | fuel + 1, c :: cs =>
    if leadsWith "window.location".data (c :: cs) then
      windowLocationRepl.data ++ wlGo fuel ((c :: cs).drop 15)
    else c :: wlGo fuel cs

/-- Rewriting pass 6: `window.location` neutralization. -/
def passWindowLocation (html : String) : String := ⟨wlGo html.data.length html.data⟩

/-- First-match-only replace of `/<head[^>]*>/` (routes.ts lines 403–404):
the `<base href="{url}">` tag is appended to the first matched head-open tag;
if no position matches, the text is unchanged. -/
def baseTagGo (baseTag : List Char) : Nat → List Char → List Char
  | 0, cs => cs
  | _ + 1, [] => []
  | fuel + 1, c :: cs =>
    if leadsWith "<head".data (c :: cs) then
      let after := (c :: cs).drop 5
      let p := after.span (fun x => x ≠ '>')
      match p.2 with
      | '>' :: rest2 => "<head".data ++ p.1 ++ '>' :: (baseTag ++ rest2)
      | _ => c :: baseTagGo baseTag fuel cs
    else c :: baseTagGo baseTag fuel cs

/-- Rewriting pass 7: base-tag injection. -/
def passBaseTag (baseUrl html : String) : String :=
  ⟨baseTagGo ("<base href=\"" ++ baseUrl ++ "\">").data html.data.length html.data⟩

/-- The injected event-bridge script (routes.ts lines 407–545), verbatim. -/
def enhancementScript : String :=
  "\n        <script>\n          // Notify parent window when page is fully loaded\n          window.addEventListener(\x27load\x27, function() \x7b\n            window.parent.postMessage(\x27iframe:loaded\x27, \x27*\x27);\n          \x7d);\n\n          // Catch errors and send them to parent\n          window.addEventListener(\x27error\x27, function(e) \x7b\n            window.parent.postMessage(\x27error:\x27 + e.message, \x27*\x27);\n            return false;\n          \x7d);\n\n          // Handle all link clicks\n          document.addEventListener(\x27click\x27, function(e) \x7b\n            // Find closest anchor tag\n            let target = e.target;\n            while (target && target.tagName !== \x27A\x27) \x7b\n              target = target.parentElement;\n            \x7d\n\n            // If we found an anchor and it has an href\n            if (target && target.tagName === \x27A\x27 && target.href) \x7b\n              // Only process if it\x27s not already handled by our proxy\n              if (!target.href.includes(\x27/api/proxy\x27)) \x7b\n                e.preventDefault();\n                window.location.href = \x27/api/proxy?url=\x27 + encodeURIComponent(target.href);\n              \x7d\n            \x7d\n          \x7d, true);\n\n          // Intercept all XHR requests\n          (function(open) \x7b\n            XMLHttpRequest.prototype.open = function(method, url) \x7b\n              // Only proxy absolute or root-relative URLs\n              if (url.startsWith(\x27http\x27) || url.startsWith(\x27/\x27)) \x7b\n                // If it\x27s a relative URL, convert to absolute based on current page\n                const absoluteUrl = url.startsWith(\x27http\x27) ? url : new URL(url, window.location.href).toString();\n                arguments[1] = \x27/api/proxy?url=\x27 + encodeURIComponent(absoluteUrl);\n              \x7d\n              return open.apply(this, arguments);\n            \x7d;\n          \x7d)(XMLHttpRequest.prototype.open);\n\n          // Intercept fetch requests\n          (function(fetch) \x7b\n            window.fetch = function(resource, init) \x7b\n              // Handle both string URLs and Request objects\n              let url = resource;\n              if (resource instanceof Request) \x7b\n                url = resource.url;\n              \x7d\n\n              // Only proxy absolute or root-relative URLs\n              if (typeof url === \x27string\x27 && (url.startsWith(\x27http\x27) || url.startsWith(\x27/\x27))) \x7b\n                // If it\x27s a relative URL, convert to absolute based on current page\n                const absoluteUrl = url.startsWith(\x27http\x27) ? url : new URL(url, window.location.href).toString();\n                const proxiedUrl = \x27/api/proxy?url=\x27 + encodeURIComponent(absoluteUrl);\n\n                if (resource instanceof Request) \x7b\n                  resource = new Request(proxiedUrl, resource);\n                \x7d else \x7b\n                  resource = proxiedUrl;\n                \x7d\n              \x7d\n\n              return fetch.call(this, resource, init);\n            \x7d;\n          \x7d)(window.fetch);\n\n          // Handle form submissions\n          document.addEventListener(\x27DOMContentLoaded\x27, function() \x7b\n            // Send load notification again after DOM content loaded\n            window.parent.postMessage(\x27iframe:loaded\x27, \x27*\x27);\n\n            // Handle form submissions\n            document.querySelectorAll(\x27form\x27).forEach(form => \x7b\n              form.addEventListener(\x27submit\x27, function(e) \x7b\n                e.preventDefault();\n                const formAction = this.action || window.location.href;\n                const formMethod = this.method || \x27GET\x27;\n                const formData = new FormData(this);\n\n                if (formMethod.toUpperCase() === \x27GET\x27) \x7b\n                  const queryString = new URLSearchParams(formData).toString();\n                  const separator = formAction.includes(\x27?\x27) ? \x27&\x27 : \x27?\x27;\n                  window.location.href = \x27/api/proxy?url=\x27 + encodeURIComponent(formAction + separator + queryString);\n                \x7d else \x7b\n                  // POST handling\n                  const xhr = new XMLHttpRequest();\n                  xhr.open(formMethod, \x27/api/proxy?url=\x27 + encodeURIComponent(formAction), true);\n                  xhr.setRequestHeader(\x27Content-Type\x27, \x27application/x-www-form-urlencoded\x27);\n                  xhr.onreadystatechange = function() \x7b\n                    if (xhr.readyState === 4) \x7b\n                      if (xhr.status >= 200 && xhr.status < 400) \x7b\n                        // Create a DOM parser to handle the response HTML\n                        const parser = new DOMParser();\n                        const responseDoc = parser.parseFromString(xhr.responseText, \x27text/html\x27);\n\n                        // Replace the current document\x27s HTML\n                        document.documentElement.innerHTML = responseDoc.documentElement.innerHTML;\n\n                        // Execute any scripts in the new document\n                        const scripts = document.getElementsByTagName(\x27script\x27);\n                        for (let i = 0; i < scripts.length; i++) \x7b\n                          if (scripts[i].text) \x7b\n                            try \x7b\n                              eval(scripts[i].text);\n                            \x7d catch (error) \x7b\n                              console.error(\x27Error executing script:\x27, error);\n                            \x7d\n                          \x7d\n                        \x7d\n\n                        // Notify parent that we\x27ve loaded new content\n                        window.parent.postMessage(\x27iframe:loaded\x27, \x27*\x27);\n                      \x7d else \x7b\n                        console.error(\x27Form submission failed:\x27, xhr.status);\n                        window.parent.postMessage(\x27error:Form submission failed with status \x27 + xhr.status, \x27*\x27);\n                      \x7d\n                    \x7d\n                  \x7d;\n                  xhr.send(new URLSearchParams(formData).toString());\n                \x7d\n              \x7d);\n            \x7d);\n          \x7d);\n\n          // Fix window.open to use proxy\n          const originalWindowOpen = window.open;\n          window.open = function(url, name, specs) \x7b\n            if (url && (url.startsWith(\x27http\x27) || url.startsWith(\x27/\x27))) \x7b\n              const absoluteUrl = url.startsWith(\x27http\x27) ? url : new URL(url, window.location.href).toString();\n              return originalWindowOpen.call(window, \x27/api/proxy?url=\x27 + encodeURIComponent(absoluteUrl), name, specs);\n            \x7d\n            return originalWindowOpen.call(window, url, name, specs);\n          \x7d;\n        </script>\n        "

/-- First-occurrence literal string replace (JavaScript
`String.prototype.replace` with a string pattern; the replacement contains no
`$` patterns). -/
def replaceFirst (lit repl : List Char) : Nat → List Char → List Char
  | 0, cs => cs
  | _ + 1, [] => []
  | fuel + 1, c :: cs =>
    if leadsWith lit (c :: cs) then repl ++ (c :: cs).drop lit.length
    else c :: replaceFirst lit repl fuel cs

/-- Rewriting pass 8: bridge-script injection before `</head>` (routes.ts
line 547). -/
def passScriptInject (html : String) : String :=
  ⟨replaceFirst "</head>".data (enhancementScript ++ "</head>").data
    html.data.length html.data⟩

/-- The HTML Rewriter (routes.ts lines 304–547): the eight text
transformations applied in source order to the decoded body. -/
def rewriteHtml (baseUrl html : String) : String :=
  passScriptInject
    (passBaseTag baseUrl
      (passWindowLocation
        (passStyleBg baseUrl
          (passCssUrl baseUrl
            (pass3 baseUrl
              (pass2
                (pass1 html)))))))

/-! ## The `/api/proxy` handler: validation, header relay, body relay -/

/-- Outcome of the validation stage of a handler taking a `url` query
parameter (routes.ts lines 197–207): a 400 response with its message, or the
sanitized URL that is then fetched.  A missing parameter and the empty string
are both falsy in `if (!urlParam)`. -/
inductive ProxyStep where
  | badRequest (msg : String)
  | fetch (url : String)
  deriving DecidableEq, Repr

/-- Validation stage of the `/api/proxy` handler (routes.ts lines 197–207). -/
def proxyValidate (urlParam : Option String) : ProxyStep :=
  match urlParam with
  | none => .badRequest "URL parameter is required"
  | some p =>
    if p = "" then .badRequest "URL parameter is required"
    else
      let url := sanitizeUrl p
      if isValidUrl url then .fetch url
      else .badRequest "Invalid URL provided"

/-- The allow-list of upstream headers (routes.ts lines 270–275). -/
def safeHeaderKeys : List String :=
  ["content-type", "content-length", "date", "connection",
   "last-modified", "etag", "vary", "content-encoding",
   "content-language", "expires", "pragma", "cache-control",
   "accept-ranges", "content-range", "set-cookie"]

/-- `res.setHeader`: header names are case-insensitive and setting a header
replaces any previous value stored under the same name. -/
def setHeader (hs : List (String × String)) (k v : String) : List (String × String) :=
  hs.filter (fun p => lowerList p.1.data ≠ lowerList k.data) ++ [(k, v)]

/-- The headers set unconditionally after the relay loop (routes.ts
lines 287–297), in source order. -/
def overridePairs : List (String × String) :=
  [("Access-Control-Allow-Origin", "*"),
   ("Access-Control-Allow-Methods", "GET, POST, PUT, DELETE, OPTIONS, HEAD, PATCH"),
   ("Access-Control-Allow-Headers",
    "Origin, X-Requested-With, Content-Type, Accept, Authorization, X-HTTP-Method-Override"),
   ("Access-Control-Allow-Credentials", "true"),
   ("Access-Control-Max-Age", "86400"),
   ("X-Frame-Options", "ALLOWALL"),
   ("X-XSS-Protection", "1; mode=block"),
   ("X-Content-Type-Options", "nosniff"),
   ("Cache-Control", "no-cache, no-store, must-revalidate"),
   ("Content-Security-Policy",
    "default-src * \x27unsafe-inline\x27 \x27unsafe-eval\x27 data: blob:; connect-src * data: blob:; img-src * data: blob:; media-src * data: blob:; font-src * data: blob:; script-src * \x27unsafe-inline\x27 \x27unsafe-eval\x27; style-src * \x27unsafe-inline\x27;")]

/-- The header relay (routes.ts lines 267–297): walk the upstream header
entries, copying only allow-listed names (the `set-cookie` special case
performs the same `setHeader` as the general one), then set the override
headers. -/
def relayHeaders (upstream : List (String × String)) : List (String × String) :=
  let copied := upstream.foldl
    (fun acc kv =>
      if (⟨lowerList kv.1.data⟩ : String) ∈ safeHeaderKeys
      then setHeader acc kv.1 kv.2 else acc) []
  overridePairs.foldl (fun acc kv => setHeader acc kv.1 kv.2) copied

/-- `response.headers.get('content-type') || 'text/html'` (routes.ts
line 265): an absent header is `null`; both `null` and the empty string are
falsy, so both fall back to `text/html`. -/
def effectiveContentType (ct : Option String) : String :=
  match ct with
  | none => "text/html"
  | some s => if s = "" then "text/html" else s

/-- The body sent to the client: `.raw` models `res.send(body)` with the
buffered upstream bytes (byte-identical relay); `.html` models
`res.send(html)` with rewritten text. -/
inductive RelayedBody where
  | raw (bytes : List Nat)
  | html (text : String)
  deriving DecidableEq, Repr

/-- The content-type branch of the proxy response (routes.ts lines 299–553):
`bytes` are the buffered upstream body bytes, `decoded` their
`body.toString()` UTF-8 decoding; an effective content type containing
`text/html` routes the decoded text through the HTML Rewriter, anything else
relays the bytes unmodified. -/
def relayBody (ct : Option String) (baseUrl : String) (bytes : List Nat)
    (decoded : String) : RelayedBody :=
  if containsSubstr (effectiveContentType ct) "text/html" then
    .html (rewriteHtml baseUrl decoded)
  else .raw bytes

/-! ## The recent-searches store handlers -/

/-- A row of `recent_searches` (shared/schema.ts lines 11–18).  The nullable
`user_id` column is never written by any handler and is omitted;
`visited_at` is an abstract timestamp tick. -/
structure SearchRecord where
  id : Nat
  url : String
  title : String
  favicon : String
  visited_at : Nat
  deriving DecidableEq, Repr

/-- Request body of `POST /api/recent-searches` (missing fields are
`undefined`). -/
structure SearchBody where
  url : Option String
  title : Option String
  favicon : Option String

/-- JavaScript `a || b` for a string-or-missing value: a present non-empty
string wins, otherwise the default. -/
def jsOr (o : Option String) (dflt : String) : String :=
  match o with
  | some s => if s = "" then dflt else s
  | none => dflt

/-- `new URL(su).hostname` for an already-validated URL (the default title,
routes.ts line 143). -/
def hostnameOf (su : String) : String :=
  match parseHttpUrl su with
  | some u => u.hostname
  | none => ""

/-- Response of `POST /api/recent-searches`. -/
inductive PostResult where
  | badRequest (msg : String)
  | ok (record : SearchRecord)
  deriving DecidableEq, Repr

/-- The `POST /api/recent-searches` handler (routes.ts lines 128–166) against
a database state: validate the url (missing or empty → 400; unparseable after
sanitizing → 400), default the title to the hostname and the favicon to the
Google favicon service keyed by the sanitized URL, then upsert by URL: if
rows with that URL exist, bump their `visited_at` and respond with the row as
it was selected (before the update); otherwise insert a new row (serial id
`nextId`, `visited_at` defaulting to `now`) and respond with it. -/
def postRecentSearch (db : List SearchRecord) (nextId now : Nat) (b : SearchBody) :
    PostResult × List SearchRecord :=
  match b.url with
  | none => (.badRequest "URL is required", db)
  | some u =>
    if u = "" then (.badRequest "URL is required", db)
    else
      let su := sanitizeUrl u
      if !isValidUrl su then (.badRequest "Invalid URL provided", db)
      else
        let title := jsOr b.title (hostnameOf su)
        let favicon := jsOr b.favicon ("https://www.google.com/s2/favicons?domain=" ++ su)
        match db.filter (fun r => r.url == su) with
        | [] =>
          let row : SearchRecord := ⟨nextId, su, title, favicon, now⟩
          (.ok row, db ++ [row])
        | r :: _ =>
          (.ok r,
           db.map (fun r2 => if r2.url == su then { r2 with visited_at := now } else r2))

/-- Response of `DELETE /api/recent-searches/:id`. -/
inductive DeleteResult where
  | badRequest (msg : String)
  | success
  deriving DecidableEq, Repr

/-- The `DELETE /api/recent-searches/:id` handler (routes.ts lines 169–182):
`parseInt` the path parameter; 400 on NaN, otherwise delete the rows with
that id and report `{success: true}`. -/
def deleteRecentSearch (db : List SearchRecord) (idParam : String) :
    DeleteResult × List SearchRecord :=
  match jsParseInt idParam with
  | none => (.badRequest "Invalid ID provided", db)
  | some n => (.success, db.filter (fun r => (r.id : Int) != n))

/-- Modelled from the spec: "delete by numeric id; 400 if id not numeric" —
the spec-side reading of a numeric id string: a non-empty run of decimal
digits, optionally preceded by a minus sign. -/
def isNumericString (s : String) : Bool :=
  match s.data with
  | [] => false
  | '-' :: rest => rest ≠ [] && rest.all Char.isDigit
  | cs => cs.all Char.isDigit

/-! # Theorems -/

/-! ## C1, C7: the rewriting pipeline re-matches its own proxy URLs -/

/-- C1: the claim states that for every absolute http(s) URL in a monitored
attribute the Rewriter's output contains that attribute rewritten to
`/api/proxy?url=<percent-encoded URL>`.  The attribute pass alone produces
exactly that (first conjunct), but the later root-relative pass re-matches
the rewritten value (it starts with `/`) and double-proxies it against the
page's own host, so the full Rewriter output does not contain the claimed
attribute (remaining conjuncts) — evaluating the code at the failing input
`<img src="https://cdn.x.com/a.png">` with base `https://example.com`. -/
theorem C1_rewriter_double_proxies_absolute_urls :
    pass1 "<img src=\"https://cdn.x.com/a.png\">" =
      "<img src=\"/api/proxy?url=https%3A%2F%2Fcdn.x.com%2Fa.png\">" ∧
    rewriteHtml "https://example.com" "<img src=\"https://cdn.x.com/a.png\">" =
      "<img src=\"/api/proxy?url=https%3A%2F%2Fexample.com%2Fapi%2Fproxy%3Furl%3Dhttps%253A%252F%252Fcdn.x.com%252Fa.png\">" ∧
    containsSubstr
      (rewriteHtml "https://example.com" "<img src=\"https://cdn.x.com/a.png\">")
      "src=\"/api/proxy?url=https%3A%2F%2Fcdn.x.com%2Fa.png\"" = false := by
  refine ⟨rfl, rfl, ?_⟩
  decide

/-- C7: the claim states that re-running the Rewriter on text whose attribute
values are already `/api/proxy?url=...` targets leaves them unchanged.  The
attribute-match regex indeed no longer matches, but the root-relative pass
does (the value starts with `/`), so a second full rewriting pass
double-encodes the URL — evaluated at
`<a href="/api/proxy?url=https%3A%2F%2Fx.com%2F">`. -/
theorem C7_rewriter_not_idempotent_on_proxy_urls :
    rewriteHtml "https://example.com" "<a href=\"/api/proxy?url=https%3A%2F%2Fx.com%2F\">" =
      "<a href=\"/api/proxy?url=https%3A%2F%2Fexample.com%2Fapi%2Fproxy%3Furl%3Dhttps%253A%252F%252Fx.com%252F\">" ∧
    rewriteHtml "https://example.com" "<a href=\"/api/proxy?url=https%3A%2F%2Fx.com%2F\">" ≠
      "<a href=\"/api/proxy?url=https%3A%2F%2Fx.com%2F\">" := by
  refine ⟨rfl, ?_⟩
  decide

/-! ## C5: the srcset pass never resolves root-relative components -/

/-- C5: the claim states that in the srcset pass a component beginning with
`/` is resolved against the base URL's origin and proxied.  In the code the
destructured component name `url` shadows the outer target URL, so
`new URL(url)` is called on the scheme-less component itself and always
throws; the `catch` returns the component unchanged.  Evaluated at
`srcset="/img.png 2x"`: the pass leaves the value untouched and proxies
nothing; the last conjunct is the root cause (the parse of the component
fails). -/
theorem C5_srcset_relative_component_unresolved :
    pass2 "<img srcset=\"/img.png 2x\">" = "<img srcset=\"/img.png 2x\">" ∧
    containsSubstr (pass2 "<img srcset=\"/img.png 2x\">") "/api/proxy" = false ∧
    parseHttpUrl "/img.png" = none := by
  refine ⟨rfl, by decide, rfl⟩

/-! ## C10: absent content-type defaults to text/html -/

/-- C10: when the upstream response has no Content-Type header at all, the
relay defaults it to `text/html`, so the body goes through the HTML Rewriter
(which includes the bridge-script injection pass) instead of being relayed
byte-identically. -/
theorem C10_no_content_type_rewrites_as_html (baseUrl : String) (bytes : List Nat)
    (decoded : String) :
    relayBody none baseUrl bytes decoded = .html (rewriteHtml baseUrl decoded) ∧
    relayBody none baseUrl bytes decoded ≠ .raw bytes := by
  have h : relayBody none baseUrl bytes decoded = .html (rewriteHtml baseUrl decoded) := rfl
  exact ⟨h, by rw [h]; simp⟩

/-! ## C3: non-HTML bodies are relayed byte-identically — except the
empty content-type, which is falsy and defaults to text/html -/

/-- C3 counterexample: an upstream response whose content-type is the empty
string does not contain `text/html`, yet `'' || 'text/html'` makes the code
take the HTML branch, so the relayed body is the rewritten text rather than
the upstream bytes. -/
theorem C3_empty_content_type_rewrites :
    containsSubstr "" "text/html" = false ∧
    relayBody (some "") "https://example.com" ("</head>".data.map Char.toNat) "</head>" ≠
      RelayedBody.raw ("</head>".data.map Char.toNat) := by
  have h : relayBody (some "") "https://example.com" ("</head>".data.map Char.toNat)
      "</head>" = .html (rewriteHtml "https://example.com" "</head>") := rfl
  exact ⟨by decide, by rw [h]; simp⟩

/-- C3 (amended): for every upstream response whose content-type is present,
non-empty and does not contain `text/html`, the relayed body is the upstream
bytes, byte-identical, with no rewriting pass applied. -/
theorem C3_non_html_body_relayed_raw (ct baseUrl : String) (bytes : List Nat)
    (decoded : String) (hne : ct ≠ "")
    (h : containsSubstr ct "text/html" = false) :
    relayBody (some ct) baseUrl bytes decoded = .raw bytes := by
  unfold relayBody effectiveContentType
  simp [if_neg hne, h]

/-- Witness for C3 (amended) at content-type `image/png`. -/
theorem C3_non_html_body_relayed_raw_witness :
    relayBody (some "image/png") "https://example.com" [137, 80, 78, 71] "x" =
      .raw [137, 80, 78, 71] :=
  C3_non_html_body_relayed_raw "image/png" "https://example.com" [137, 80, 78, 71] "x"
    (by decide) (by decide)

/-! ## C2: the URL Normalizer -/

/-- C2 counterexample: `"a b"` begins with neither scheme; the Normalizer
prepends `https://`, but the result does not parse as a valid absolute URL
(space is a forbidden host character), refuting the claim's "and the result
then parses as a valid absolute URL". -/
theorem C2_unschemed_input_may_fail_to_parse :
    (strStartsWith "a b" "http://" = false) ∧ (strStartsWith "a b" "https://" = false) ∧
    sanitizeUrl "a b" = "https://a b" ∧ isValidUrl (sanitizeUrl "a b") = false := by
  decide

/-- C2 (amended): inputs with no `http://`/`https://` lead-in get `https://`
prepended (but need not then parse); schemed inputs are passed to parsing
unchanged; when the sanitized string fails to parse the handler responds
400 `Invalid URL provided` and does not fetch (everything fetched is a
validated URL). -/
theorem C2_normalizer_contract (s p : String) (hp : p ≠ "") :
    (¬(strStartsWith s "http://" = true ∨ strStartsWith s "https://" = true) →
      sanitizeUrl s = "https://" ++ s) ∧
    ((strStartsWith s "http://" = true ∨ strStartsWith s "https://" = true) →
      sanitizeUrl s = s) ∧
    (isValidUrl (sanitizeUrl p) = false →
      proxyValidate (some p) = .badRequest "Invalid URL provided") ∧
    (isValidUrl (sanitizeUrl p) = true →
      proxyValidate (some p) = .fetch (sanitizeUrl p)) ∧
    (∀ u, proxyValidate (some p) = .fetch u → isValidUrl u = true) := by
  refine ⟨?_, ?_, ?_, ?_, ?_⟩
  · intro h
    rw [not_or, Bool.not_eq_true, Bool.not_eq_true] at h
    simp [sanitizeUrl, h.1, h.2]
  · intro h
    rcases h with h | h <;> simp [sanitizeUrl, h]
  · intro h
    simp [proxyValidate, hp, h]
  · intro h
    simp [proxyValidate, hp, h]
  · intro u h
    simp only [proxyValidate, hp, if_neg, if_false] at h
    by_cases hv : isValidUrl (sanitizeUrl p) = true
    · rw [if_pos hv] at h
      cases h
      exact hv
    · rw [if_neg hv] at h
      cases h

/-- Witness for C2 (amended): concrete unschemed and invalid inputs. -/
theorem C2_normalizer_contract_witness :
    sanitizeUrl "example.com" = "https://example.com" ∧
    proxyValidate (some "a b") = .badRequest "Invalid URL provided" ∧
    proxyValidate (some "example.com") = .fetch "https://example.com" := by
  have h1 := C2_normalizer_contract "example.com" "a b" (by decide)
  have h2 := C2_normalizer_contract "example.com" "example.com" (by decide)
  refine ⟨?_, h1.2.2.1 (by decide), ?_⟩
  · exact (h1.1 (by decide)).trans (by decide)
  · have := h2.2.2.2.1 (by decide)
    rwa [(by decide : sanitizeUrl "example.com" = "https://example.com")] at this


/-! ## C9: DELETE /api/recent-searches/:id -/

theorem digit_not_jsWhitespace (c : Char) (h : c.isDigit = true) :
    jsWhitespace c = false := by
  have h1 : 48 ≤ c.toNat ∧ c.toNat ≤ 57 := by simpa [Char.isDigit] using h
  simp only [jsWhitespace, Bool.or_eq_false_iff, decide_eq_false_iff_not]
  omega

theorem takeWhile_digits_self (cs : List Char) (h : cs.all Char.isDigit = true) :
    cs.takeWhile Char.isDigit = cs := by
  induction cs with
  | nil => rfl
  | cons c t ih =>
    simp only [List.all_cons, Bool.and_eq_true] at h
    simp [List.takeWhile_cons, h.1, ih h.2]

theorem jsParseIntBody_digits (sign : Int) (cs : List Char) (hne : cs ≠ [])
    (h : cs.all Char.isDigit = true) :
    jsParseIntBody sign cs = some (sign * (decDigitsVal cs : Nat)) := by
  rcases cs with _ | ⟨c0, _ | ⟨x, r⟩⟩
  · exact absurd rfl hne
  · show (if ([c0] : List Char).takeWhile Char.isDigit = [] then none
      else some (sign * (decDigitsVal (([c0] : List Char).takeWhile Char.isDigit) : Nat))) = _
    rw [takeWhile_digits_self _ h, if_neg (by simp)]
  · have hx : x.isDigit = true := by
      simp only [List.all_cons, Bool.and_eq_true] at h
      exact h.2.1
    have hxn : 48 ≤ x.toNat ∧ x.toNat ≤ 57 := by simpa [Char.isDigit] using hx
    have hx1 : x ≠ 'x' := by intro hc; subst hc; revert hxn; decide
    have hx2 : x ≠ 'X' := by intro hc; subst hc; revert hxn; decide
    show (if c0 = '0' ∧ (x = 'x' ∨ x = 'X') then _ else _) = _
    rw [if_neg (by simp [hx1, hx2]), takeWhile_digits_self _ h,
      if_neg (by simp)]

theorem jsParseInt_of_digits (cs : List Char) (hne : cs ≠ [])
    (h : cs.all Char.isDigit = true) :
    jsParseInt ⟨cs⟩ = some ((decDigitsVal cs : Nat) : Int) := by
  rcases cs with _ | ⟨c, t⟩
  · exact absurd rfl hne
  · have hcd : c.isDigit = true := by
      simp only [List.all_cons, Bool.and_eq_true] at h
      exact h.1
    have hcn : 48 ≤ c.toNat ∧ c.toNat ≤ 57 := by simpa [Char.isDigit] using hcd
    have hdrop : (c :: t).dropWhile jsWhitespace = c :: t := by
      simp [List.dropWhile_cons, digit_not_jsWhitespace c hcd]
    have hcplus : c ≠ '+' := by intro hc; subst hc; revert hcn; decide
    have hcminus : c ≠ '-' := by intro hc; subst hc; revert hcn; decide
    show (match (c :: t).dropWhile jsWhitespace with
      | [] => jsParseIntBody 1 []
      | c :: r =>
        if c = '+' then jsParseIntBody 1 r
        else if c = '-' then jsParseIntBody (-1) r
        else jsParseIntBody 1 (c :: r)) = some ((decDigitsVal (c :: t) : Nat) : Int)
    rw [hdrop]
    show (if c = '+' then jsParseIntBody 1 t
      else if c = '-' then jsParseIntBody (-1) t
      else jsParseIntBody 1 (c :: t)) = _
    rw [if_neg hcplus, if_neg hcminus, jsParseIntBody_digits 1 (c :: t) hne h]
    simp

/-- C9 counterexample: the id `"12abc"` is not numeric, yet `parseInt` reads
the prefix `12`, so the handler deletes record 12 and answers success rather
than 400 — refuting "returns 400 exactly when the id is not numeric". -/
theorem C9_nonnumeric_id_accepted :
    isNumericString "12abc" = false ∧
    deleteRecentSearch [⟨12, "https://foo.com", "foo.com", "fav", 0⟩] "12abc" =
      (.success, []) := by
  constructor
  · decide
  · decide

/-- C9 (amended): the handler answers 400 exactly when `parseInt` yields NaN
(no leading integer after optional whitespace and sign); whenever `parseInt`
reads an integer `n` — in particular for every properly numeric id, which
parses to its decimal value — the rows with id `n` are deleted and success is
returned. -/
theorem C9_delete_by_parsed_id (db : List SearchRecord) (idParam : String) :
    ((deleteRecentSearch db idParam).1 = .badRequest "Invalid ID provided" ↔
      jsParseInt idParam = none) ∧
    (∀ n, jsParseInt idParam = some n →
      deleteRecentSearch db idParam =
        (.success, db.filter (fun r => (r.id : Int) != n))) ∧
    (idParam.data ≠ [] → idParam.data.all Char.isDigit = true →
      jsParseInt idParam = some ((decDigitsVal idParam.data : Nat) : Int)) := by
  refine ⟨?_, ?_, ?_⟩
  · constructor
    · intro h
      rcases hp : jsParseInt idParam with _ | n
      · rfl
      · rw [deleteRecentSearch, hp] at h
        cases h
    · intro h
      rw [deleteRecentSearch, h]
  · intro n h
    rw [deleteRecentSearch, h]
  · intro h1 h2
    have := jsParseInt_of_digits idParam.data h1 h2
    rwa [show (⟨idParam.data⟩ : String) = idParam from rfl] at this

/-- Witness for C9 (amended): deleting with id string `"12"` removes the row
with id 12 and keeps the rest. -/
theorem C9_delete_by_parsed_id_witness :
    deleteRecentSearch
      [⟨12, "https://foo.com", "foo.com", "fav", 0⟩, ⟨3, "https://b.com", "b", "fav", 1⟩]
      "12" =
      (.success, [⟨3, "https://b.com", "b", "fav", 1⟩]) := by
  have h := (C9_delete_by_parsed_id
    [⟨12, "https://foo.com", "foo.com", "fav", 0⟩, ⟨3, "https://b.com", "b", "fav", 1⟩]
    "12").2.1 12 (by decide)
  exact h.trans (by decide)

/-! ## C4: header allow-list and overrides -/

theorem mem_setHeader (hs : List (String × String)) (k v : String)
    (p : String × String) (h : p ∈ setHeader hs k v) : p ∈ hs ∨ p = (k, v) := by
  simp only [setHeader, List.mem_append, List.mem_filter, List.mem_singleton] at h
  rcases h with h | h
  · exact .inl h.1
  · exact .inr h

theorem mem_setHeader_of_ne (hs : List (String × String)) (k v : String)
    (p : String × String) (hp : p ∈ hs)
    (hne : lowerList p.1.data ≠ lowerList k.data) : p ∈ setHeader hs k v := by
  simp only [setHeader, List.mem_append, List.mem_filter]
  exact .inl ⟨hp, by simpa using hne⟩

theorem self_mem_setHeader (hs : List (String × String)) (k v : String) :
    (k, v) ∈ setHeader hs k v := by
  simp [setHeader]

theorem copied_fold_mem (l : List (String × String)) (acc : List (String × String))
    (p : String × String)
    (h : p ∈ l.foldl
      (fun acc kv =>
        if (⟨lowerList kv.1.data⟩ : String) ∈ safeHeaderKeys
        then setHeader acc kv.1 kv.2 else acc) acc) :
    p ∈ acc ∨ (p ∈ l ∧ (⟨lowerList p.1.data⟩ : String) ∈ safeHeaderKeys) := by
  induction l generalizing acc with
  | nil => exact .inl h
  | cons kv t ih =>
    simp only [List.foldl_cons] at h
    by_cases hs : (⟨lowerList kv.1.data⟩ : String) ∈ safeHeaderKeys
    · rw [if_pos hs] at h
      rcases ih _ h with h2 | h2
      · rcases mem_setHeader _ _ _ _ h2 with h3 | h3
        · exact .inl h3
        · refine .inr ⟨?_, ?_⟩
          · rw [h3]
            simp
          · rw [h3]
            exact hs
      · exact .inr ⟨List.mem_cons_of_mem _ h2.1, h2.2⟩
    · rw [if_neg hs] at h
      rcases ih _ h with h2 | h2
      · exact .inl h2
      · exact .inr ⟨List.mem_cons_of_mem _ h2.1, h2.2⟩

theorem override_fold_mem (l : List (String × String)) (acc : List (String × String))
    (p : String × String)
    (h : p ∈ l.foldl (fun acc kv => setHeader acc kv.1 kv.2) acc) :
    p ∈ acc ∨ p ∈ l := by
  induction l generalizing acc with
  | nil => exact .inl h
  | cons kv t ih =>
    simp only [List.foldl_cons] at h
    rcases ih _ h with h2 | h2
    · rcases mem_setHeader _ _ _ _ h2 with h3 | h3
      · exact .inl h3
      · refine .inr ?_
        rw [h3]
        simp
    · exact .inr (List.mem_cons_of_mem _ h2)

theorem override_fold_keeps (l : List (String × String)) (acc : List (String × String))
    (q : String × String) (hq : q ∈ acc)
    (hdiff : ∀ kv ∈ l, lowerList q.1.data ≠ lowerList kv.1.data) :
    q ∈ l.foldl (fun acc kv => setHeader acc kv.1 kv.2) acc := by
  induction l generalizing acc with
  | nil => exact hq
  | cons kv t ih =>
    simp only [List.foldl_cons]
    refine ih _ (mem_setHeader_of_ne _ _ _ _ hq ?_) ?_
    · exact hdiff kv (by simp)
    · intro kv2 h2
      exact hdiff kv2 (List.mem_cons_of_mem _ h2)

theorem override_fold_self (l : List (String × String)) (acc : List (String × String))
    (q : String × String) (hq : q ∈ l)
    (hnodup : l.Pairwise (fun a b => lowerList a.1.data ≠ lowerList b.1.data)) :
    q ∈ l.foldl (fun acc kv => setHeader acc kv.1 kv.2) acc := by
  induction l generalizing acc with
  | nil => cases hq
  | cons kv t ih =>
    simp only [List.foldl_cons]
    rcases List.mem_cons.mp hq with h | h
    · subst h
      refine override_fold_keeps _ _ _ ?_ ?_
      · have : (q.1, q.2) ∈ setHeader acc q.1 q.2 := self_mem_setHeader acc q.1 q.2
        simpa using this
      · intro kv2 h2
        exact (List.pairwise_cons.mp hnodup).1 kv2 h2
    · exact ih _ h (List.pairwise_cons.mp hnodup).2

/-- C4: everything on the relayed response is either an upstream header whose
lower-cased name is in the allow-list or one of the unconditional override
headers (so every other upstream header is dropped); and every override pair —
the permissive CORS set, `X-Frame-Options: ALLOWALL`, the permissive CSP, and
`Cache-Control: no-cache, no-store, must-revalidate` among them — is present
on the relayed response regardless of the upstream headers. -/
theorem C4_header_allowlist_and_overrides (upstream : List (String × String)) :
    (∀ p ∈ relayHeaders upstream,
      (p ∈ upstream ∧ (⟨lowerList p.1.data⟩ : String) ∈ safeHeaderKeys) ∨
        p ∈ overridePairs) ∧
    (∀ q ∈ overridePairs, q ∈ relayHeaders upstream) := by
  constructor
  · intro p hp
    unfold relayHeaders at hp
    rcases override_fold_mem _ _ _ hp with h | h
    · rcases copied_fold_mem _ _ _ h with h2 | h2
      · cases h2
      · exact .inl h2
    · exact .inr h
  · intro q hq
    unfold relayHeaders
    exact override_fold_self _ _ _ hq (by decide)

/-- Witness for C4 at a synthetic upstream response: the allow-listed `etag`
header and the overrides are relayed; the disallowed `x-powered-by` header is
dropped. -/
theorem C4_header_allowlist_and_overrides_witness :
    ("X-Frame-Options", "ALLOWALL") ∈
      relayHeaders [("x-powered-by", "Express"), ("etag", "W/x")] ∧
    ¬(("x-powered-by", "Express") ∈
      relayHeaders [("x-powered-by", "Express"), ("etag", "W/x")]) := by
  have h := C4_header_allowlist_and_overrides [("x-powered-by", "Express"), ("etag", "W/x")]
  refine ⟨h.2 _ (by decide), fun hm => ?_⟩
  have h2 := h.1 _ hm
  revert h2
  decide

/-! ## C8: POST /api/recent-searches upsert -/

theorem postRecentSearch_foo (db : List SearchRecord) (nid now : Nat) :
    postRecentSearch db nid now ⟨some "foo.com", none, none⟩ =
      ((match db.filter (fun r => r.url == "https://foo.com") with
       | [] =>
         (PostResult.ok (SearchRecord.mk nid "https://foo.com" "foo.com"
            "https://www.google.com/s2/favicons?domain=https://foo.com" now),
          db ++ [SearchRecord.mk nid "https://foo.com" "foo.com"
            "https://www.google.com/s2/favicons?domain=https://foo.com" now])
       | r :: _ =>
         (PostResult.ok r,
          db.map (fun r2 => if r2.url == "https://foo.com"
            then { r2 with visited_at := now } else r2))) :
        PostResult × List SearchRecord) := rfl

/-- C8: upsert by URL.  On a database with no `https://foo.com` row, posting
`{url: "foo.com"}` inserts exactly one row whose title defaults to the
hostname `foo.com` and whose favicon defaults to the Google favicon-service
URL, and returns it; repeating the same post inserts nothing (the row count
is unchanged), bumps `visited_at` of the existing row to the new time, and
returns that row (as selected, i.e. with its previous timestamp); a missing
url and an invalid url are answered with 400. -/
theorem C8_recent_search_upsert (db : List SearchRecord) (n1 t1 n2 t2 : Nat)
    (hnew : db.filter (fun r => r.url == "https://foo.com") = []) :
    (postRecentSearch db n1 t1 ⟨none, none, none⟩).1 = .badRequest "URL is required" ∧
    (postRecentSearch db n1 t1 ⟨some "a b", none, none⟩).1 =
      .badRequest "Invalid URL provided" ∧
    postRecentSearch db n1 t1 ⟨some "foo.com", none, none⟩ =
      (PostResult.ok <| SearchRecord.mk n1 "https://foo.com" "foo.com"
        "https://www.google.com/s2/favicons?domain=https://foo.com" t1,
       db ++ [SearchRecord.mk n1 "https://foo.com" "foo.com"
        "https://www.google.com/s2/favicons?domain=https://foo.com" t1]) ∧
    postRecentSearch
        (db ++ [SearchRecord.mk n1 "https://foo.com" "foo.com"
          "https://www.google.com/s2/favicons?domain=https://foo.com" t1]) n2 t2
        ⟨some "foo.com", none, none⟩ =
      (PostResult.ok <| SearchRecord.mk n1 "https://foo.com" "foo.com"
        "https://www.google.com/s2/favicons?domain=https://foo.com" t1,
       db ++ [SearchRecord.mk n1 "https://foo.com" "foo.com"
        "https://www.google.com/s2/favicons?domain=https://foo.com" t2]) ∧
    (db ++ [SearchRecord.mk n1 "https://foo.com" "foo.com"
      "https://www.google.com/s2/favicons?domain=https://foo.com" t2]).length =
      (db ++ [SearchRecord.mk n1 "https://foo.com" "foo.com"
        "https://www.google.com/s2/favicons?domain=https://foo.com" t1]).length := by
  have hdbid : ∀ r ∈ db, (r.url == "https://foo.com") = false := by
    intro r hr
    have := List.filter_eq_nil_iff.mp hnew r hr
    simpa using this
  refine ⟨rfl, rfl, ?_, ?_, by simp⟩
  · rw [postRecentSearch_foo, hnew]
  · rw [postRecentSearch_foo]
    rw [List.filter_append, hnew, List.nil_append]
    have hfilter1 :
        List.filter (fun r => r.url == "https://foo.com")
          [SearchRecord.mk n1 "https://foo.com" "foo.com"
            "https://www.google.com/s2/favicons?domain=https://foo.com" t1] =
          [⟨n1, "https://foo.com", "foo.com",
            "https://www.google.com/s2/favicons?domain=https://foo.com", t1⟩] := rfl
    rw [hfilter1]
    simp only [List.map_append, Prod.mk.injEq, true_and]
    have hone : List.map
        (fun r2 => if r2.url == "https://foo.com"
          then { r2 with visited_at := t2 } else r2)
        [(SearchRecord.mk n1 "https://foo.com" "foo.com"
          "https://www.google.com/s2/favicons?domain=https://foo.com" t1 :
          SearchRecord)] =
        [SearchRecord.mk n1 "https://foo.com" "foo.com"
          "https://www.google.com/s2/favicons?domain=https://foo.com" t2] := rfl
    rw [hone]
    have hmap : List.map
        (fun r2 => if r2.url == "https://foo.com"
          then { r2 with visited_at := t2 } else r2) db = List.map id db :=
      List.map_congr_left (fun r hr => by simp [hdbid r hr])
    rw [hmap, List.map_id]

/-- Witness for C8: the concrete end-to-end scenario on an empty store. -/
theorem C8_recent_search_upsert_witness :
    postRecentSearch [] 1 10 ⟨some "foo.com", none, none⟩ =
      (PostResult.ok <| SearchRecord.mk 1 "https://foo.com" "foo.com"
        "https://www.google.com/s2/favicons?domain=https://foo.com" 10,
       [SearchRecord.mk 1 "https://foo.com" "foo.com"
        "https://www.google.com/s2/favicons?domain=https://foo.com" 10]) ∧
    postRecentSearch
        [SearchRecord.mk 1 "https://foo.com" "foo.com"
          "https://www.google.com/s2/favicons?domain=https://foo.com" 10] 2 20
        ⟨some "foo.com", none, none⟩ =
      (PostResult.ok <| SearchRecord.mk 1 "https://foo.com" "foo.com"
        "https://www.google.com/s2/favicons?domain=https://foo.com" 10,
       [SearchRecord.mk 1 "https://foo.com" "foo.com"
        "https://www.google.com/s2/favicons?domain=https://foo.com" 20]) := by
  have h := C8_recent_search_upsert [] 1 10 2 20 rfl
  refine ⟨h.2.2.1, ?_⟩
  have h4 := h.2.2.2.1
  simpa using h4

/-! ## Round-trip: percent-decoding inverts percent-encoding -/

theorem hexVal_hexDigitUpper (n : Nat) (h : n < 16) :
    hexVal (hexDigitUpper n) = some n := by
  interval_cases n <;> decide

theorem pdTokens_byteEsc (b : Nat) (hb : b < 256) (rest : List Char) :
    pdTokens (byteEsc b ++ rest) = (pdTokens rest).map (PdTok.byte b :: ·) := by
  show pdTokens ('%' :: hexDigitUpper (b / 16) :: hexDigitUpper (b % 16) :: rest) = _
  simp only [pdTokens, hexVal_hexDigitUpper _ (show b / 16 < 16 by omega),
    hexVal_hexDigitUpper _ (show b % 16 < 16 by omega), if_pos]
  rw [Nat.div_add_mod b 16]

theorem pdTokens_lit (c : Char) (hc : c ≠ '%') (rest : List Char) :
    pdTokens (c :: rest) = (pdTokens rest).map (PdTok.lit c :: ·) := by
  rw [pdTokens.eq_def]
  simp only [hc, if_false, ite_false]

theorem contByte_in (b : Nat) (h1 : 128 ≤ b) (h2 : b < 192) :
    contByte (PdTok.byte b) = some (b - 128) := by
  show (if 128 ≤ b ∧ b < 192 then some (b - 128) else none) = some (b - 128)
  rw [if_pos ⟨h1, h2⟩]

theorem decodeMulti_two (b1 b2 : Nat) (h1 : 194 ≤ b1) (h1b : b1 < 224)
    (h2 : 128 ≤ b2) (h2b : b2 < 192) (ts : List PdTok) :
    decodeMulti b1 (PdTok.byte b2 :: ts) =
      some ((b1 - 192) * 64 + (b2 - 128),
        ⟨ts, by simp only [List.length_cons]; omega⟩) := by
  unfold decodeMulti
  rw [if_neg (by omega), if_pos (by omega)]
  simp only [contByte_in b2 h2 h2b]

theorem decodeMulti_three (b1 b2 b3 : Nat) (h1 : 224 ≤ b1) (h1b : b1 < 240)
    (h2 : 128 ≤ b2) (h2b : b2 < 192) (h3 : 128 ≤ b3) (h3b : b3 < 192)
    (hn : 2048 ≤ (b1 - 224) * 4096 + (b2 - 128) * 64 + (b3 - 128))
    (hs : ¬(55296 ≤ (b1 - 224) * 4096 + (b2 - 128) * 64 + (b3 - 128) ∧
            (b1 - 224) * 4096 + (b2 - 128) * 64 + (b3 - 128) < 57344))
    (ts : List PdTok) :
    decodeMulti b1 (PdTok.byte b2 :: PdTok.byte b3 :: ts) =
      some ((b1 - 224) * 4096 + (b2 - 128) * 64 + (b3 - 128),
        ⟨ts, by simp only [List.length_cons]; omega⟩) := by
  unfold decodeMulti
  rw [if_neg (by omega), if_neg (by omega), if_pos (by omega)]
  simp only [contByte_in b2 h2 h2b, contByte_in b3 h3 h3b]
  rw [if_pos ⟨hn, hs⟩]

theorem decodeMulti_four (b1 b2 b3 b4 : Nat) (h1 : 240 ≤ b1) (h1b : b1 < 245)
    (h2 : 128 ≤ b2) (h2b : b2 < 192) (h3 : 128 ≤ b3) (h3b : b3 < 192)
    (h4 : 128 ≤ b4) (h4b : b4 < 192)
    (hn : 65536 ≤ (b1 - 240) * 262144 + (b2 - 128) * 4096 + (b3 - 128) * 64 + (b4 - 128))
    (hm : (b1 - 240) * 262144 + (b2 - 128) * 4096 + (b3 - 128) * 64 + (b4 - 128) ≤ 1114111)
    (ts : List PdTok) :
    decodeMulti b1 (PdTok.byte b2 :: PdTok.byte b3 :: PdTok.byte b4 :: ts) =
      some ((b1 - 240) * 262144 + (b2 - 128) * 4096 + (b3 - 128) * 64 + (b4 - 128),
        ⟨ts, by simp only [List.length_cons]; omega⟩) := by
  unfold decodeMulti
  rw [if_neg (by omega), if_neg (by omega), if_neg (by omega), if_pos (by omega)]
  simp only [contByte_in b2 h2 h2b, contByte_in b3 h3 h3b, contByte_in b4 h4 h4b]
  rw [if_pos ⟨hn, hm⟩]

theorem utf8DecodeTokens_lit (c : Char) (ts : List PdTok) :
    utf8DecodeTokens (PdTok.lit c :: ts) = (utf8DecodeTokens ts).map (c :: ·) := by
  rw [utf8DecodeTokens]

theorem utf8DecodeTokens_low (b : Nat) (hb : b < 128) (ts : List PdTok) :
    utf8DecodeTokens (PdTok.byte b :: ts) =
      (utf8DecodeTokens ts).map (Char.ofNat b :: ·) := by
  rw [utf8DecodeTokens]
  rw [if_pos hb]

theorem utf8DecodeTokens_multi (b : Nat) (hb : ¬ b < 128) (ts : List PdTok) :
    utf8DecodeTokens (PdTok.byte b :: ts) =
      (match decodeMulti b ts with
       | some (n, ts2) => (utf8DecodeTokens ts2.val).map (Char.ofNat n :: ·)
       | none => none) := by
  rw [utf8DecodeTokens]
  rw [if_neg hb]

theorem utf8Bytes_all_lt (n : Nat) (hn : n ≤ 1114111) :
    ∀ b ∈ utf8Bytes n, b < 256 := by
  intro b hb
  unfold utf8Bytes at hb
  split at hb
  · simp at hb; omega
  · split at hb
    · simp at hb; rcases hb with h | h <;> omega
    · split at hb
      · simp at hb; rcases hb with h | h | h <;> omega
      · simp at hb; rcases hb with h | h | h | h <;> omega

theorem pdTokens_byteEscList (bs : List Nat) (hbs : ∀ b ∈ bs, b < 256)
    (rest : List Char) :
    pdTokens (bs.flatMap byteEsc ++ rest) =
      (pdTokens rest).map (bs.map PdTok.byte ++ ·) := by
  induction bs with
  | nil =>
    cases h : pdTokens rest <;> simp [h]
  | cons b t ih =>
    rw [List.flatMap_cons, List.append_assoc,
      pdTokens_byteEsc b (hbs b (by simp)) _,
      ih (fun x hx => hbs x (by simp [hx]))]
    cases pdTokens rest <;> rfl

theorem pdTokens_encodeList (cs : List Char) :
    pdTokens (encodeList cs) = some (cs.flatMap encTok) := by
  induction cs with
  | nil => rfl
  | cons c t ih =>
    show pdTokens (encChar c ++ encodeList t) = _
    by_cases huc : uriUnescaped c = true
    · have hcp : c ≠ '%' := by
        intro hc
        subst hc
        revert huc
        decide
      rw [show encChar c = [c] from by simp [encChar, huc], List.singleton_append,
        pdTokens_lit c hcp, ih]
      simp [encTok, huc]
    · have hv := c.valid
      have hle : c.toNat ≤ 1114111 := by
        have he : c.toNat = c.val.toNat := rfl
        rcases hv with h | h
        · omega
        · omega
      rw [show encChar c = (utf8Bytes c.toNat).flatMap byteEsc from by
          simp [encChar, huc],
        pdTokens_byteEscList _ (utf8Bytes_all_lt _ hle) _, ih]
      simp [encTok, huc]

theorem utf8DecodeTokens_encTok (c : Char) (ts : List PdTok) :
    utf8DecodeTokens (encTok c ++ ts) = (utf8DecodeTokens ts).map (c :: ·) := by
  by_cases huc : uriUnescaped c = true
  · rw [show encTok c = [PdTok.lit c] from by simp [encTok, huc], List.singleton_append,
      utf8DecodeTokens_lit]
  · rw [show encTok c = (utf8Bytes c.toNat).map PdTok.byte from by simp [encTok, huc]]
    have hv := c.valid
    have he : c.toNat = c.val.toNat := rfl
    have hvn : c.toNat < 55296 ∨ (57343 < c.toNat ∧ c.toNat < 1114112) := by
      rcases hv with h | h
      · exact .inl (by omega)
      · exact .inr (by omega)
    have hofn : Char.ofNat c.toNat = c := Char.ofNat_toNat c
    by_cases h1 : c.toNat < 128
    · rw [show utf8Bytes c.toNat = [c.toNat] from by rw [utf8Bytes, if_pos h1]]
      show utf8DecodeTokens (PdTok.byte c.toNat :: ts) = _
      rw [utf8DecodeTokens_low _ h1, hofn]
    · by_cases h2 : c.toNat < 2048
      · rw [show utf8Bytes c.toNat = [192 + c.toNat / 64, 128 + c.toNat % 64] from by
          rw [utf8Bytes, if_neg h1, if_pos h2]]
        show utf8DecodeTokens
          (PdTok.byte (192 + c.toNat / 64) :: PdTok.byte (128 + c.toNat % 64) :: ts) = _
        rw [utf8DecodeTokens_multi _ (by omega) _,
          decodeMulti_two _ _ (by omega) (by omega) (by omega) (by omega) ts]
        simp only []
        have harith : (192 + c.toNat / 64 - 192) * 64 + (128 + c.toNat % 64 - 128) =
            c.toNat := by omega
        rw [harith, hofn]
      · by_cases h3 : c.toNat < 65536
        · rw [show utf8Bytes c.toNat =
              [224 + c.toNat / 4096, 128 + (c.toNat / 64) % 64, 128 + c.toNat % 64] from by
            rw [utf8Bytes, if_neg h1, if_neg h2, if_pos h3]]
          show utf8DecodeTokens (PdTok.byte (224 + c.toNat / 4096) ::
            PdTok.byte (128 + (c.toNat / 64) % 64) ::
            PdTok.byte (128 + c.toNat % 64) :: ts) = _
          have harith : (224 + c.toNat / 4096 - 224) * 4096 +
              (128 + (c.toNat / 64) % 64 - 128) * 64 + (128 + c.toNat % 64 - 128) =
              c.toNat := by omega
          rw [utf8DecodeTokens_multi _ (by omega) _,
            decodeMulti_three _ _ _ (by omega) (by omega) (by omega) (by omega)
              (by omega) (by omega) (by omega) (by rw [harith]; omega) ts]
          simp only []
          rw [harith, hofn]
        · rw [show utf8Bytes c.toNat =
              [240 + c.toNat / 262144, 128 + (c.toNat / 4096) % 64,
               128 + (c.toNat / 64) % 64, 128 + c.toNat % 64] from by
            rw [utf8Bytes, if_neg h1, if_neg h2, if_neg h3]]
          show utf8DecodeTokens (PdTok.byte (240 + c.toNat / 262144) ::
            PdTok.byte (128 + (c.toNat / 4096) % 64) ::
            PdTok.byte (128 + (c.toNat / 64) % 64) ::
            PdTok.byte (128 + c.toNat % 64) :: ts) = _
          have harith : (240 + c.toNat / 262144 - 240) * 262144 +
              (128 + (c.toNat / 4096) % 64 - 128) * 4096 +
              (128 + (c.toNat / 64) % 64 - 128) * 64 + (128 + c.toNat % 64 - 128) =
              c.toNat := by omega
          rw [utf8DecodeTokens_multi _ (by omega) _,
            decodeMulti_four _ _ _ _ (by omega) (by omega) (by omega) (by omega)
              (by omega) (by omega) (by omega) (by omega)
              (by rw [harith]; omega) (by rw [harith]; omega) ts]
          simp only []
          rw [harith, hofn]

theorem utf8DecodeTokens_encTokList (cs : List Char) :
    utf8DecodeTokens (cs.flatMap encTok) = some cs := by
  induction cs with
  | nil =>
    rw [show ([] : List Char).flatMap encTok = [] from rfl, utf8DecodeTokens]
  | cons c t ih =>
    rw [List.flatMap_cons, utf8DecodeTokens_encTok, ih]
    rfl

theorem percentDecode_encodeList (cs : List Char) :
    percentDecode (encodeList cs) = some cs := by
  rw [percentDecode, pdTokens_encodeList]
  exact utf8DecodeTokens_encTokList cs

theorem percentDecode_encodeURIComponent (s : String) :
    percentDecode (encodeURIComponent s).data = some s.data :=
  percentDecode_encodeList s.data

/-! ## C6 machinery -/

theorem toNat_ofNat_valid (n : Nat) (h : n.isValidChar) : (Char.ofNat n).toNat = n := by
  unfold Char.ofNat
  rw [dif_pos h]
  rfl

theorem isQuote_asciiLower (c : Char) : isQuote (asciiLower c) = isQuote c := by
  unfold asciiLower
  split
  · rename_i h
    have h1 : 65 ≤ c.toNat := h.1
    have h2 : c.toNat ≤ 90 := h.2
    have hlow : (Char.ofNat (c.toNat + 32)).toNat = c.toNat + 32 := by
      apply toNat_ofNat_valid
      exact Or.inl (by omega)
    have hq1 : isQuote (Char.ofNat (c.toNat + 32)) = false := by
      simp only [isQuote, Bool.or_eq_false_iff, decide_eq_false_iff_not]
      constructor
      · intro hc
        have hn := congrArg Char.toNat hc
        rw [hlow] at hn
        rw [show ('"' : Char).toNat = 34 from rfl] at hn
        omega
      · intro hc
        have hn := congrArg Char.toNat hc
        rw [hlow] at hn
        rw [show squote.toNat = 39 from rfl] at hn
        omega
    have hq2 : isQuote c = false := by
      simp only [isQuote, Bool.or_eq_false_iff, decide_eq_false_iff_not]
      constructor
      · intro hc
        subst hc
        revert h1
        decide
      · intro hc
        subst hc
        revert h1
        decide
    rw [hq1, hq2]
  · rfl

theorem spanNQ_sound (cs : List Char) :
    cs = (spanNQ cs).1 ++ (spanNQ cs).2 ∧
    (∀ c ∈ (spanNQ cs).1, isQuote c = false) ∧
    ((spanNQ cs).2 = [] ∨ ∃ q rest, (spanNQ cs).2 = q :: rest ∧ isQuote q = true) := by
  induction cs with
  | nil => exact ⟨rfl, by simp [spanNQ], .inl rfl⟩
  | cons c t ih =>
    by_cases hc : isQuote c = true
    · refine ⟨by simp [spanNQ, hc], by simp [spanNQ, hc], ?_⟩
      refine .inr ⟨c, t, by simp [spanNQ, hc], hc⟩
    · have hc2 : isQuote c = false := by simpa using hc
      have hfst : (spanNQ (c :: t)).1 = c :: (spanNQ t).1 := by
        simp [spanNQ, hc2]
      have hsnd : (spanNQ (c :: t)).2 = (spanNQ t).2 := by
        simp [spanNQ, hc2]
      refine ⟨?_, ?_, ?_⟩
      · rw [hfst, hsnd, List.cons_append, ← ih.1]
      · intro x hx
        rw [hfst] at hx
        rcases List.mem_cons.mp hx with h | h
        · rwa [h]
        · exact ih.2.1 x h
      · rw [hsnd]
        exact ih.2.2

theorem spanNQ_eq (rel : List Char) (h : ∀ c ∈ rel, isQuote c = false)
    (q : Char) (hq : isQuote q = true) (post : List Char) :
    spanNQ (rel ++ q :: post) = (rel, q :: post) := by
  induction rel with
  | nil => simp [spanNQ, hq]
  | cons c t ih =>
    have hc := h c (by simp)
    have ht := ih (fun x hx => h x (by simp [hx]))
    simp [spanNQ, hc, ht]

theorem ciMatches_inv (pat cs nm rest : List Char)
    (h : ciMatches pat cs = some (nm, rest)) :
    cs = nm ++ rest ∧ lowerList nm = pat := by
  induction pat generalizing cs nm rest with
  | nil =>
    simp only [ciMatches, Option.some.injEq, Prod.mk.injEq] at h
    rw [← h.1, ← h.2]
    exact ⟨rfl, rfl⟩
  | cons p ps ih =>
    rcases cs with _ | ⟨c, cs2⟩
    · simp [ciMatches] at h
    · simp only [ciMatches] at h
      split at h
      · rename_i hlc
        rcases hci : ciMatches ps cs2 with _ | ⟨nm2, rest2⟩
        · rw [hci] at h
          simp at h
        · rw [hci] at h
          simp only [Option.map_some, Option.some.injEq, Prod.mk.injEq] at h
          obtain ⟨hcm, hrest⟩ := h
          obtain ⟨hsplit, hlow⟩ := ih cs2 nm2 rest2 hci
          rw [← hcm, ← hrest]
          constructor
          · rw [hsplit]
            rfl
          · show lowerList (c :: nm2) = p :: ps
            rw [show lowerList (c :: nm2) = asciiLower c :: lowerList nm2 from rfl,
              hlc, hlow]
      · cases h

theorem matchValue3_inv (cs rel : List Char) (q q2 : Char) (rest : List Char)
    (h : matchValue3 cs = some (rel, q, q2, rest)) :
    cs = '=' :: q :: '/' :: (rel ++ q2 :: rest) ∧ isQuote q = true ∧
      isQuote q2 = true ∧ (∀ c ∈ rel, isQuote c = false) := by
  unfold matchValue3 at h
  split at h
  · rename_i q0 rest0
    split at h
    · rename_i hq0
      split at h
      · rename_i rel0 q2c rest2 hsp
        split at h
        · rename_i hq2c
          simp only [Option.some.injEq, Prod.mk.injEq] at h
          obtain ⟨h1, h2, h3, h4⟩ := h
          subst h1
          subst h2
          subst h3
          subst h4
          have hs := spanNQ_sound rest0
          rw [hsp] at hs
          refine ⟨?_, hq0, hq2c, hs.2.1⟩
          rw [← hs.1]
        · cases h
      · cases h
    · cases h
  · cases h

theorem tryNames3_inv (baseUrl : String) (names : List String) (cs : List Char)
    (r : List Char × List Char) (h : tryNames3 baseUrl names cs = some r) :
    ∃ n ∈ names, ∃ nm rel rest, ∃ q q2 : Char,
      cs = nm ++ '=' :: q :: '/' :: (rel ++ q2 :: rest) ∧
      lowerList nm = n.data ∧ isQuote q = true ∧ isQuote q2 = true ∧
      (∀ c ∈ rel, isQuote c = false) ∧ r.2 = rest := by
  induction names with
  | nil => cases h
  | cons n ns ih =>
    simp only [tryNames3] at h
    rcases hci : ciMatches n.data cs with _ | ⟨nm, cs1⟩
    · simp only [hci] at h
      obtain ⟨n2, hn2, rest⟩ := ih h
      exact ⟨n2, by simp [hn2], rest⟩
    · simp only [hci] at h
      rcases hm3 : matchValue3 cs1 with _ | ⟨rel, q, q2, rest⟩
      · simp only [hm3] at h
        obtain ⟨n2, hn2, rest⟩ := ih h
        exact ⟨n2, by simp [hn2], rest⟩
      · simp only [hm3] at h
        obtain ⟨hsplit, hlow⟩ := ciMatches_inv n.data cs nm cs1 hci
        obtain ⟨hcs1, hq, hq2, hrel⟩ := matchValue3_inv cs1 rel q q2 rest hm3
        have hr2 : r.2 = rest := by
          rcases hpu : parseHttpUrl baseUrl with _ | u <;>
            simp only [hpu, Option.some.injEq] at h <;> rw [← h]
        refine ⟨n, by simp, nm, rel, rest, q, q2, ?_, hlow, hq, hq2, hrel, hr2⟩
        rw [hsplit, hcs1]

theorem quotefree_decomp_unique (x1 : List Char) (q1 : Char) (y1 : List Char)
    (x2 : List Char) (q2 : Char) (y2 : List Char)
    (hx1 : ∀ c ∈ x1, isQuote c = false) (hx2 : ∀ c ∈ x2, isQuote c = false)
    (hq1 : isQuote q1 = true) (hq2 : isQuote q2 = true)
    (h : x1 ++ q1 :: y1 = x2 ++ q2 :: y2) : x1 = x2 ∧ q1 = q2 ∧ y1 = y2 := by
  induction x1 generalizing x2 with
  | nil =>
    rcases x2 with _ | ⟨c, x2t⟩
    · simp only [List.nil_append, List.cons.injEq] at h
      exact ⟨rfl, h.1, h.2⟩
    · simp only [List.nil_append, List.cons_append, List.cons.injEq] at h
      have hc := hx2 c (by simp)
      rw [← h.1] at hc
      rw [hq1] at hc
      cases hc
  | cons c x1t ih =>
    rcases x2 with _ | ⟨c2, x2t⟩
    · simp only [List.cons_append, List.nil_append, List.cons.injEq] at h
      have hc := hx1 c (by simp)
      rw [h.1] at hc
      rw [hq2] at hc
      cases hc
    · simp only [List.cons_append, List.cons.injEq] at h
      obtain ⟨hc, hrest⟩ := h
      obtain ⟨ha, hb, hcy⟩ := ih x2t (fun x hx => hx1 x (by simp [hx]))
        (fun x hx => hx2 x (by simp [hx])) hrest
      exact ⟨by rw [hc, ha], hb, hcy⟩

theorem urlAttributes_lower : ∀ a ∈ urlAttributes, lowerList a.data = a.data := by
  decide

theorem urlAttributes_quotefree :
    ∀ a ∈ urlAttributes, ∀ c ∈ a.data, isQuote c = false := by
  decide

theorem urlAttributes_ne_nil : ∀ a ∈ urlAttributes, a.data ≠ [] := by
  decide

theorem lowerList_quotefree (nm : List Char) (pat : List Char)
    (hlow : lowerList nm = pat) (hpat : ∀ c ∈ pat, isQuote c = false) :
    ∀ c ∈ nm, isQuote c = false := by
  intro c hc
  have : asciiLower c ∈ pat := by
    rw [← hlow]
    exact List.mem_map_of_mem _ hc
  have h2 := hpat _ this
  rwa [isQuote_asciiLower] at h2

theorem tryNames3_none_in_pre (baseUrl : String) (attr : String)
    (hattr : attr ∈ urlAttributes) (s : List Char)
    (hsq : ∀ c ∈ s, isQuote c = false)
    (hbound : (⟨lowerList s ++ attr.data⟩ : String) ∉ urlAttributes)
    (q q2 : Char) (hq : isQuote q = true)
    (rel : List Char) (post : List Char) :
    tryNames3 baseUrl urlAttributes
      (s ++ attr.data ++ '=' :: q :: '/' :: (rel ++ q2 :: post)) = none := by
  rcases hmatch : tryNames3 baseUrl urlAttributes
    (s ++ attr.data ++ '=' :: q :: '/' :: (rel ++ q2 :: post)) with _ | r
  · rfl
  · exfalso
    obtain ⟨n, hn, nm, rel2, rest2, q3, q4, hcs, hlow, hq3, hq4, hrel2, hr2⟩ :=
      tryNames3_inv _ _ _ r hmatch
    have hshape1 : s ++ attr.data ++ '=' :: q :: '/' :: (rel ++ q2 :: post) =
        (s ++ attr.data ++ ['=']) ++ q :: ('/' :: (rel ++ q2 :: post)) := by
      simp
    have hshape2 : nm ++ '=' :: q3 :: '/' :: (rel2 ++ q4 :: rest2) =
        (nm ++ ['=']) ++ q3 :: ('/' :: (rel2 ++ q4 :: rest2)) := by
      simp
    rw [hshape1, hshape2] at hcs
    have hx1 : ∀ c ∈ s ++ attr.data ++ ['='], isQuote c = false := by
      intro c hc
      simp only [List.append_assoc, List.mem_append, List.mem_singleton] at hc
      rcases hc with hc | hc | hc
      · exact hsq c hc
      · exact urlAttributes_quotefree attr hattr c hc
      · rw [hc]
        decide
    have hx2 : ∀ c ∈ nm ++ ['='], isQuote c = false := by
      intro c hc
      simp only [List.mem_append, List.mem_singleton] at hc
      rcases hc with hc | hc
      · exact lowerList_quotefree nm n.data hlow
          (urlAttributes_quotefree n hn) c hc
      · rw [hc]
        decide
    obtain ⟨hx, hqq, hy⟩ := quotefree_decomp_unique _ _ _ _ _ _ hx1 hx2 hq hq3 hcs
    have hnm : nm = s ++ attr.data := by
      have := hx.symm
      rwa [List.append_assoc s attr.data ['='], ← List.append_assoc,
        List.append_left_inj] at this
    apply hbound
    have hndata : n.data = lowerList s ++ attr.data := by
      rw [← hlow, hnm]
      show lowerList (s ++ attr.data) = _
      rw [show lowerList (s ++ attr.data) = lowerList s ++ lowerList attr.data from
        List.map_append _ _ _, urlAttributes_lower attr hattr]
    have hn2 : n = ⟨lowerList s ++ attr.data⟩ := by
      cases n with
      | mk d => exact congrArg String.mk hndata
    rwa [← hn2]

theorem tryNames3_at_occ (baseUrl : String) (u : UrlParts)
    (hbase : parseHttpUrl baseUrl = some u) (attr : String)
    (hattr : attr ∈ urlAttributes) (q q2 : Char)
    (hq : isQuote q = true) (hq2 : isQuote q2 = true)
    (rel : List Char) (hrel : ∀ c ∈ rel, isQuote c = false) (post : List Char) :
    tryNames3 baseUrl urlAttributes
      (attr.data ++ '=' :: q :: '/' :: (rel ++ q2 :: post)) =
      some (attr.data ++ '=' :: q :: ("/api/proxy?url=".data ++
        encodeList ((u.protocol ++ "//" ++ u.host).data ++ '/' :: rel) ++ [q2]),
        post) := by
  have hspan := spanNQ_eq rel hrel q2 hq2 post
  fin_cases hattr <;>
    simp [tryNames3, ciMatches, matchValue3, asciiLower, hq, hq2, hspan, hbase]

theorem urlAttributes_head_ne_slash : ∀ a ∈ urlAttributes, a.data.head? ≠ some '/' := by
  decide

theorem ciMatches_of_lower (nm rest : List Char) :
    ciMatches (lowerList nm) (nm ++ rest) = some (nm, rest) := by
  induction nm with
  | nil => rfl
  | cons c t ih =>
    show ciMatches (asciiLower c :: lowerList t) (c :: (t ++ rest)) = some (c :: t, rest)
    simp [ciMatches, ih]

theorem openRelAt_of_shape (n : String) (nm : List Char)
    (hlow : lowerList nm = n.data) (q1 : Char) (hq1 : isQuote q1 = true)
    (tail : List Char) (htail : ∀ c ∈ tail, isQuote c = false) :
    openRelAt n (nm ++ '=' :: q1 :: '/' :: tail) = true := by
  unfold openRelAt
  rw [← hlow, ciMatches_of_lower]
  show (decide (('=' : Char) = '=') && decide (('/' : Char) = '/') && isQuote q1 &&
      tail.all (fun c => !isQuote c)) = true
  have hall : tail.all (fun c => !isQuote c) = true := by
    rw [List.all_eq_true]
    intro c hc
    rw [htail c hc]
    rfl
  simp [hq1, hall]

theorem hasOpenRelMatch_of_shape (n : String) (hn : n ∈ urlAttributes)
    (nm : List Char) (hlow : lowerList nm = n.data) (q1 : Char)
    (hq1 : isQuote q1 = true) (tail : List Char)
    (htail : ∀ c ∈ tail, isQuote c = false) :
    hasOpenRelMatch (nm ++ '=' :: q1 :: '/' :: tail) = true := by
  unfold hasOpenRelMatch
  apply List.any_eq_true.mpr
  exact ⟨n, hn, openRelAt_of_shape n nm hlow q1 hq1 tail htail⟩

/-- One step of the pass-3 scanner at a position strictly before the monitored
occurrence: provided the remaining prefix cannot complete a longer monitored
name and carries no dangling `name=["']/` opening, the scanner either finds
nothing at this position or consumes a match that ends strictly inside the
prefix (its closing quote is a quote of the prefix), leaving the occurrence
intact. -/
theorem tryNames3_step (baseUrl : String) (attr : String)
    (hattr : attr ∈ urlAttributes) (q q2 : Char) (hq : isQuote q = true)
    (rel : List Char) (hrelq : ∀ c ∈ rel, isQuote c = false) (post : List Char)
    (s : List Char)
    (hbound1 : (⟨lowerList s ++ attr.data⟩ : String) ∉ urlAttributes)
    (hnos1 : hasOpenRelMatch s = false) :
    tryNames3 baseUrl urlAttributes
      (s ++ (attr.data ++ '=' :: q :: '/' :: (rel ++ q2 :: post))) = none ∨
    ∃ replc W T2,
      tryNames3 baseUrl urlAttributes
        (s ++ (attr.data ++ '=' :: q :: '/' :: (rel ++ q2 :: post))) =
        some (replc, T2 ++ (attr.data ++ '=' :: q :: '/' :: (rel ++ q2 :: post))) ∧
      s = W ++ T2 ∧ T2.length + 2 ≤ s.length := by
  rcases hmatch : tryNames3 baseUrl urlAttributes
    (s ++ (attr.data ++ '=' :: q :: '/' :: (rel ++ q2 :: post))) with _ | r
  · exact .inl rfl
  · right
    obtain ⟨n, hn, nm, rel2, rest2, q3, q4, hcs, hlow, hq3, hq4, hrel2, hr2⟩ :=
      tryNames3_inv _ _ _ r hmatch
    have hnmq : ∀ c ∈ nm ++ ['='], isQuote c = false := by
      intro c hc
      simp only [List.mem_append, List.mem_singleton] at hc
      rcases hc with hc | hc
      · exact lowerList_quotefree nm n.data hlow (urlAttributes_quotefree n hn) c hc
      · rw [hc]
        decide
    rcases hsp : spanNQ s with ⟨S1, srest⟩
    have hsound := spanNQ_sound s
    rw [hsp] at hsound
    have hsd : s = S1 ++ srest := hsound.1
    have hS1q : ∀ c ∈ S1, isQuote c = false := hsound.2.1
    rcases hsound.2.2 with hnil | ⟨q0, S2, hcons, hq0⟩
    · -- the remaining prefix is quote-free: the scanner matches nothing here
      exfalso
      have hsrnil : srest = [] := hnil
      have hsq : ∀ c ∈ s, isQuote c = false := by
        rw [hsd, hsrnil, List.append_nil]
        exact hS1q
      have hnone := tryNames3_none_in_pre baseUrl attr hattr s hsq hbound1 q q2 hq rel post
      rw [← List.append_assoc] at hmatch
      rw [hnone] at hmatch
      cases hmatch
    · have hsr : srest = q0 :: S2 := hcons
      subst hsr
      -- the opening quote of the match is the first quote of the prefix
      have hX1 : s ++ (attr.data ++ '=' :: q :: '/' :: (rel ++ q2 :: post)) =
          S1 ++ q0 :: (S2 ++ (attr.data ++ '=' :: q :: '/' :: (rel ++ q2 :: post))) := by
        rw [hsd]
        simp
      have hX2 : nm ++ '=' :: q3 :: '/' :: (rel2 ++ q4 :: rest2) =
          (nm ++ ['=']) ++ q3 :: ('/' :: (rel2 ++ q4 :: rest2)) := by
        simp
      obtain ⟨hnmS1, hq3q0, htail1⟩ :=
        quotefree_decomp_unique (nm ++ ['=']) q3 ('/' :: (rel2 ++ q4 :: rest2))
          S1 q0 (S2 ++ (attr.data ++ '=' :: q :: '/' :: (rel ++ q2 :: post)))
          hnmq hS1q hq3 hq0 (by rw [← hX2, ← hcs, hX1])
      have hslq : ∀ c ∈ ('/' :: rel2), isQuote c = false := by
        intro c hc
        rcases List.mem_cons.mp hc with hc | hc
        · rw [hc]
          decide
        · exact hrel2 c hc
      rcases hsp2 : spanNQ S2 with ⟨T1, s2rest⟩
      have hsound2 := spanNQ_sound S2
      rw [hsp2] at hsound2
      have hS2d : S2 = T1 ++ s2rest := hsound2.1
      have hT1q : ∀ c ∈ T1, isQuote c = false := hsound2.2.1
      rcases hsound2.2.2 with hnil2 | ⟨qS, T2, hcons2, hqS⟩
      · -- no further quote before the occurrence: the closing quote of the
        -- match would be the opening quote of the occurrence, which the
        -- dangling-opening hypothesis rules out
        exfalso
        have hs2nil : s2rest = [] := hnil2
        have hS2q : ∀ c ∈ S2, isQuote c = false := by
          rw [hS2d, hs2nil, List.append_nil]
          exact hT1q
        have hY1 : ('/' :: rel2) ++ q4 :: rest2 = '/' :: (rel2 ++ q4 :: rest2) := by simp
        have hY2 : S2 ++ (attr.data ++ '=' :: q :: '/' :: (rel ++ q2 :: post)) =
            (S2 ++ attr.data ++ ['=']) ++ q :: ('/' :: (rel ++ q2 :: post)) := by
          simp
        have hpreq : ∀ c ∈ S2 ++ attr.data ++ ['='], isQuote c = false := by
          intro c hc
          simp only [List.append_assoc, List.mem_append, List.mem_singleton] at hc
          rcases hc with hc | hc | hc
          · exact hS2q c hc
          · exact urlAttributes_quotefree attr hattr c hc
          · rw [hc]
            decide
        obtain ⟨hsl, hq4q, hrest2⟩ :=
          quotefree_decomp_unique ('/' :: rel2) q4 rest2
            (S2 ++ attr.data ++ ['=']) q ('/' :: (rel ++ q2 :: post))
            hslq hpreq hq4 hq (by rw [hY1, htail1, hY2])
        rcases S2 with _ | ⟨c0, S2t⟩
        · simp only [List.nil_append] at hsl
          rcases had : attr.data with _ | ⟨a, as⟩
          · exact absurd had (urlAttributes_ne_nil attr hattr)
          · rw [had] at hsl
            simp only [List.cons_append, List.cons.injEq] at hsl
            have hhead := urlAttributes_head_ne_slash attr hattr
            rw [had] at hhead
            exact hhead (by rw [← hsl.1]; rfl)
        · simp only [List.cons_append, List.cons.injEq] at hsl
          have hshape : s = nm ++ '=' :: q0 :: '/' :: S2t := by
            rw [hsd, ← hnmS1, ← hsl.1]
            simp
          have hS2tq : ∀ c ∈ S2t, isQuote c = false := by
            intro c hc
            exact hS2q c (List.mem_cons_of_mem _ hc)
          have hopen := hasOpenRelMatch_of_shape n hn nm hlow q0 hq0 S2t hS2tq
          rw [← hshape] at hopen
          rw [hnos1] at hopen
          exact Bool.false_ne_true hopen
      · -- the prefix has another quote: the match closes inside the prefix
        have hs2r : s2rest = qS :: T2 := hcons2
        subst hs2r
        have hY1 : ('/' :: rel2) ++ q4 :: rest2 = '/' :: (rel2 ++ q4 :: rest2) := by simp
        have hY2 : S2 ++ (attr.data ++ '=' :: q :: '/' :: (rel ++ q2 :: post)) =
            T1 ++ qS :: (T2 ++ (attr.data ++ '=' :: q :: '/' :: (rel ++ q2 :: post))) := by
          rw [hS2d]
          simp
        obtain ⟨hT1, hq4S, hrest2⟩ :=
          quotefree_decomp_unique ('/' :: rel2) q4 rest2
            T1 qS (T2 ++ (attr.data ++ '=' :: q :: '/' :: (rel ++ q2 :: post)))
            hslq hT1q hq4 hqS (by rw [hY1, htail1, hY2])
        refine ⟨r.1, S1 ++ q0 :: T1 ++ [qS], T2, ?_, ?_, ?_⟩
        · show some (r.1, r.2) = _
          rw [hr2, hrest2]
        · rw [hsd, hS2d]
          simp
        · rw [hsd, hS2d]
          simp only [List.length_append, List.length_cons]
          omega

/-- At the occurrence itself the scanner consumes exactly the monitored
attribute and its root-relative value and emits the proxied replacement. -/
theorem pass3Go_at_occ (baseUrl : String) (u : UrlParts)
    (hbase : parseHttpUrl baseUrl = some u) (attr : String)
    (hattr : attr ∈ urlAttributes) (q q2 : Char)
    (hq : isQuote q = true) (hq2 : isQuote q2 = true)
    (rel : List Char) (hrel : ∀ c ∈ rel, isQuote c = false) (post : List Char)
    (fuel : Nat) (hfuel : 1 ≤ fuel) :
    ∃ t, pass3Go baseUrl fuel (attr.data ++ '=' :: q :: '/' :: (rel ++ q2 :: post)) =
      (attr.data ++ '=' :: q :: ("/api/proxy?url=".data ++
        encodeList ((u.protocol ++ "//" ++ u.host).data ++ '/' :: rel) ++ [q2])) ++ t := by
  rcases fuel with _ | f
  · omega
  · rcases hd : attr.data with _ | ⟨a, as⟩
    · exact absurd hd (urlAttributes_ne_nil attr hattr)
    · have hocc := tryNames3_at_occ baseUrl u hbase attr hattr q q2 hq hq2 rel hrel post
      rw [hd] at hocc
      rw [show ((a :: as) : List Char) ++ '=' :: q :: '/' :: (rel ++ q2 :: post) =
        a :: (as ++ '=' :: q :: '/' :: (rel ++ q2 :: post)) from rfl] at hocc
      refine ⟨pass3Go baseUrl f post, ?_⟩
      show pass3Go baseUrl (f + 1) (a :: (as ++ '=' :: q :: '/' :: (rel ++ q2 :: post))) = _
      rw [pass3Go, hocc]

/-- The pass-3 scanner, run on any prefix satisfying the name-boundary and
no-dangling-opening conditions followed by a monitored occurrence with a
quote-free root-relative value, emits the proxied replacement for that
occurrence somewhere in its output. -/
theorem pass3Go_contains_occ (baseUrl : String) (u : UrlParts)
    (hbase : parseHttpUrl baseUrl = some u) (attr : String)
    (hattr : attr ∈ urlAttributes) (q q2 : Char)
    (hq : isQuote q = true) (hq2 : isQuote q2 = true)
    (rel : List Char) (hrel : ∀ c ∈ rel, isQuote c = false) (post : List Char) :
    ∀ m : Nat, ∀ s : List Char, s.length ≤ m →
    (∀ s2 ∈ s.tails, s2 ≠ [] → (⟨lowerList s2 ++ attr.data⟩ : String) ∉ urlAttributes) →
    (∀ s2 ∈ s.tails, hasOpenRelMatch s2 = false) →
    ∀ fuel : Nat,
    (s ++ (attr.data ++ '=' :: q :: '/' :: (rel ++ q2 :: post))).length ≤ fuel →
    ∃ head t,
      pass3Go baseUrl fuel (s ++ (attr.data ++ '=' :: q :: '/' :: (rel ++ q2 :: post))) =
        head ++ (attr.data ++ '=' :: q :: ("/api/proxy?url=".data ++
          encodeList ((u.protocol ++ "//" ++ u.host).data ++ '/' :: rel) ++ [q2])) ++ t := by
  intro m
  induction m with
  | zero =>
    intro s hsl _ _ fuel hfuel
    rcases s with _ | ⟨c, s2⟩
    · have h1 : 1 ≤ fuel := by
        simp only [List.nil_append, List.length_append, List.length_cons] at hfuel
        omega
      obtain ⟨t, ht⟩ := pass3Go_at_occ baseUrl u hbase attr hattr q q2 hq hq2 rel hrel
        post fuel h1
      exact ⟨[], t, by simpa using ht⟩
    · exfalso
      simp only [List.length_cons] at hsl
      omega
  | succ m ih =>
    intro s hsl hbound hnos fuel hfuel
    rcases s with _ | ⟨c, s2⟩
    · have h1 : 1 ≤ fuel := by
        simp only [List.nil_append, List.length_append, List.length_cons] at hfuel
        omega
      obtain ⟨t, ht⟩ := pass3Go_at_occ baseUrl u hbase attr hattr q q2 hq hq2 rel hrel
        post fuel h1
      exact ⟨[], t, by simpa using ht⟩
    · have hstep := tryNames3_step baseUrl attr hattr q q2 hq rel hrel post (c :: s2)
        (hbound (c :: s2) (by simp) (by simp))
        (hnos (c :: s2) (by simp))
      rcases fuel with _ | f
      · exfalso
        simp only [List.cons_append, List.length_cons] at hfuel
        omega
      · rcases hstep with hnone | ⟨replc, W, T2, hsome, hWT, hlen2⟩
        · rw [List.cons_append] at hnone
          have heq : pass3Go baseUrl (f + 1)
              ((c :: s2) ++ (attr.data ++ '=' :: q :: '/' :: (rel ++ q2 :: post))) =
              c :: pass3Go baseUrl f
                (s2 ++ (attr.data ++ '=' :: q :: '/' :: (rel ++ q2 :: post))) := by
            show pass3Go baseUrl (f + 1)
              (c :: (s2 ++ (attr.data ++ '=' :: q :: '/' :: (rel ++ q2 :: post)))) = _
            rw [pass3Go, hnone]
          obtain ⟨head, t, hrec⟩ := ih s2
            (by simp only [List.length_cons] at hsl; omega)
            (fun x hx hne => hbound x
              (by rw [List.tails_cons]; exact List.mem_cons_of_mem _ hx) hne)
            (fun x hx => hnos x
              (by rw [List.tails_cons]; exact List.mem_cons_of_mem _ hx))
            f (by simp only [List.cons_append, List.length_cons] at hfuel; omega)
          exact ⟨c :: head, t, by rw [heq, hrec]; simp⟩
        · rw [List.cons_append] at hsome
          have heq : pass3Go baseUrl (f + 1)
              ((c :: s2) ++ (attr.data ++ '=' :: q :: '/' :: (rel ++ q2 :: post))) =
              replc ++ pass3Go baseUrl f
                (T2 ++ (attr.data ++ '=' :: q :: '/' :: (rel ++ q2 :: post))) := by
            show pass3Go baseUrl (f + 1)
              (c :: (s2 ++ (attr.data ++ '=' :: q :: '/' :: (rel ++ q2 :: post)))) = _
            rw [pass3Go, hsome]
          have hT2suf : T2 <:+ (c :: s2) := ⟨W, hWT.symm⟩
          obtain ⟨head, t, hrec⟩ := ih T2
            (by simp only [List.length_cons] at hsl hlen2; omega)
            (fun x hx hne => hbound x ((List.mem_tails _ _).mpr
              (((List.mem_tails _ _).mp hx).trans hT2suf)) hne)
            (fun x hx => hnos x ((List.mem_tails _ _).mpr
              (((List.mem_tails _ _).mp hx).trans hT2suf)))
            f (by
              simp only [List.cons_append, List.length_cons, List.length_append] at hfuel ⊢
              simp only [List.length_cons] at hlen2
              omega)
          exact ⟨replc ++ head, t, by rw [heq, hrec]; simp⟩

/-- C6, counterexample to the original claim: `relativeUrlPattern` matches a
monitored attribute value only up to the first quote character of either kind,
because its value class is `[^"']*` and its closing `["']` accepts a quote of
the opposite kind.  For `href="/it's?a=1&b=2"` against base
`https://example.com` the captured value is `it` and the apostrophe serves as
the closing quote, so the pass rewrites only `/it` and leaves `s?a=1&b=2"`
in place: the decoded `url` parameter is `https://example.com/it`, not
`scheme://host` plus the original root-relative value. -/
theorem C6_quoted_value_counterexample :
    pass3 "https://example.com" "<a href=\"/it\x27s?a=1&b=2\">" =
      "<a href=\"/api/proxy?url=https%3A%2F%2Fexample.com%2Fit\x27s?a=1&b=2\">" ∧
    containsSubstr (pass3 "https://example.com" "<a href=\"/it\x27s?a=1&b=2\">")
      ("/api/proxy?url=" ++
        encodeURIComponent "https://example.com/it\x27s?a=1&b=2") = false := by
  constructor
  · rfl
  · decide

/-- C6 (amended): the root-relative attribute rewrite pass.  For a monitored
attribute whose quoted value begins with `/` (and not `//`) and contains no
quote character of either kind, occurring where the preceding text cannot
complete a longer monitored attribute name and carries no dangling
`name=["']/` opening still unclosed at the occurrence, the pass replaces the
value with the proxied form `/api/proxy?url=<percent-encoded baseUrl-origin +
value>`, and percent-decoding that parameter yields exactly `scheme://host`
followed by the original root-relative path. -/
theorem C6_root_relative_attribute_rewrite (attr : String)
    (hattr : attr ∈ urlAttributes) (baseUrl : String) (u : UrlParts)
    (hbase : parseHttpUrl baseUrl = some u) (q q2 : Char)
    (hq : isQuote q = true) (hq2 : isQuote q2 = true)
    (rel : List Char) (hrel : ∀ c ∈ rel, isQuote c = false)
    (hnotpp : leadsWith "/".data rel = false)
    (pre post : List Char)
    (hbound : ∀ s ∈ pre.tails, s ≠ [] →
      (⟨lowerList s ++ attr.data⟩ : String) ∉ urlAttributes)
    (hnos : ∀ s ∈ pre.tails, hasOpenRelMatch s = false) :
    (∃ head t : List Char,
      (pass3 baseUrl
          ⟨pre ++ (attr.data ++ ('=' :: q :: '/' :: (rel ++ q2 :: post)))⟩).data =
        head ++ (attr.data ++ ('=' :: q :: ("/api/proxy?url=".data ++
          encodeList ((u.protocol ++ "//" ++ u.host).data ++ '/' :: rel) ++ [q2]))) ++
          t) ∧
    percentDecode (encodeList ((u.protocol ++ "//" ++ u.host).data ++ '/' :: rel)) =
      some ((u.protocol ++ "//" ++ u.host).data ++ '/' :: rel) := by
  constructor
  · exact pass3Go_contains_occ baseUrl u hbase attr hattr q q2 hq hq2 rel hrel post
      pre.length pre (le_refl _) hbound hnos
      (pre ++ (attr.data ++ '=' :: q :: '/' :: (rel ++ q2 :: post))).length (le_refl _)
  · exact percentDecode_encodeList _

/-- Witness for C6: `<img alt="x" src="/a.png">` — a prefix that itself
contains a quoted attribute — rewritten against base `https://example.com`. -/
theorem C6_root_relative_attribute_rewrite_witness :
    (∃ head t : List Char,
      (pass3 "https://example.com"
          ⟨"<img alt=\"x\" ".data ++ ("src".data ++ ('=' :: '"' :: '/' ::
            ("a.png".data ++ '"' :: ">".data)))⟩).data =
        head ++ ("src".data ++ ('=' :: '"' :: ("/api/proxy?url=".data ++
          encodeList (((⟨"https", "example.com", ""⟩ : UrlParts).protocol ++ "//" ++
            (⟨"https", "example.com", ""⟩ : UrlParts).host).data ++
            '/' :: "a.png".data) ++ ['"']))) ++ t) ∧
    percentDecode (encodeList (((⟨"https", "example.com", ""⟩ : UrlParts).protocol ++
        "//" ++ (⟨"https", "example.com", ""⟩ : UrlParts).host).data ++
        '/' :: "a.png".data)) =
      some (((⟨"https", "example.com", ""⟩ : UrlParts).protocol ++ "//" ++
        (⟨"https", "example.com", ""⟩ : UrlParts).host).data ++
        '/' :: "a.png".data) :=
  C6_root_relative_attribute_rewrite "src" (by decide) "https://example.com"
    ⟨"https", "example.com", ""⟩ (by decide) '"' '"' (by decide) (by decide)
    "a.png".data (by decide) (by decide) "<img alt=\"x\" ".data ">".data
    (by decide) (by decide)
